import Mathlib

/-!
Verification of the Transform Engine of the mpesa-etl-pipeline repository
(`scripts/transform/transform_transactions.py`, class `TransactionTransformer`).

The pandas DataFrame is embedded as a `Batch`: a list of present column names
(dynamic column presence; reading an absent column is a `KeyError`, modelled as
`Except.error` carrying the column name) together with a list of `Row`s.
Nullable cells (NaN) are `Option`-valued fields; timestamps are whole seconds
(`ℤ`); money and scores are `ℚ`.  Cells of columns not listed in `present` are
phantom values: the embedded operations only consult a field after checking the
column's presence, exactly where the source would raise a `KeyError`.
-/

/-- Row of the (raw or canonical) transaction table.  Raw fields mirror the
Raw Transaction Record; derived fields carry defaults until `enrich_data`
writes them.  `transaction_date` is seconds since the Unix epoch. -/
structure Row where
  transaction_id : String
  sender_phone : String
  receiver_phone : String
  transaction_type : String
  amount : Option ℚ
  fee : Option ℚ
  transaction_date : ℤ
  location : Option String
  currency : String
  status : String
  fraud_risk_score : Option ℚ
  merchant_id : Option String
  reference_number : String
  channel : String
  category : String
  date_part_date : ℤ := 0
  year : ℤ := 0
  month : ℤ := 0
  day_of_week : ℤ := 0
  hour_of_day : ℤ := 0
  is_weekend : ℤ := 0
  transaction_volume_category : Option String := none
  fraud_category : Option String := none
  sender_region : String := ""
  receiver_region : String := ""
  prev_transaction_time : Option ℤ := none
  time_since_prev_transaction : Option ℚ := none
  is_suspicious_velocity : ℤ := 0
deriving DecidableEq, Repr

/-- DataFrame embedding: the list of column names present, plus the rows. -/
structure Batch where
  present : List String
  rows : List Row
deriving DecidableEq, Repr

/-- Columns of the Raw Transaction Record, in extractor order. -/
def rawColumns : List String :=
  ["transaction_id", "sender_phone", "receiver_phone", "transaction_type",
   "amount", "fee", "transaction_date", "location", "currency", "status",
   "fraud_risk_score", "merchant_id", "reference_number", "channel", "category"]

/-- `expected_columns` of `transform_data` (lines 151-159): the fixed
26-column canonical order. -/
def expected_columns : List String :=
  ["transaction_id", "sender_phone", "receiver_phone", "transaction_type",
   "amount", "fee", "transaction_date", "date_part_date", "year", "month",
   "day_of_week", "hour_of_day", "location", "currency", "status",
   "fraud_risk_score", "fraud_category", "merchant_id", "reference_number",
   "channel", "category", "sender_region", "receiver_region",
   "transaction_volume_category", "is_suspicious_velocity",
   "time_since_prev_transaction"]

/-! ### Calendar decomposition (`.dt` accessors) -/

/-- Day number of a timestamp: floor of seconds over 86400 (`.dt.date`). -/
def dayNumber (t : ℤ) : ℤ := t.ediv 86400

/-- Civil year and month from a day number (proleptic Gregorian calendar,
days measured from 1970-01-01). -/
def civilOfDays (z : ℤ) : ℤ × ℤ :=
  let z' := z + 719468
  let era : ℤ := z'.ediv 146097
  let doe : ℤ := z' - era * 146097
  let yoe : ℤ := (doe - doe.ediv 1460 + doe.ediv 36524 - doe.ediv 146096).ediv 365
  let y : ℤ := yoe + era * 400
  let doy : ℤ := doe - (365 * yoe + yoe.ediv 4 - yoe.ediv 100)
  let mp : ℤ := (5 * doy + 2).ediv 153
  let m : ℤ := mp + (if mp < 10 then 3 else -9)
  (if m ≤ 2 then y + 1 else y, m)

/-- Year of a timestamp (`.dt.year`). -/
def yearOf (t : ℤ) : ℤ := (civilOfDays (dayNumber t)).1

/-- Month of a timestamp (`.dt.month`). -/
def monthOf (t : ℤ) : ℤ := (civilOfDays (dayNumber t)).2

/-- Day of week, Monday = 0 (`.dt.dayofweek`); 1970-01-01 was a Thursday. -/
def dowMon0 (t : ℤ) : ℤ := (dayNumber t + 3).emod 7

/-- Hour of day (`.dt.hour`). -/
def hourOf (t : ℤ) : ℤ := (t.ediv 3600).emod 24

/-! ### Binning (`pd.cut`) and the region lookup -/

/-- Amount buckets of `pd.cut(bins=[0,100,500,2000,10000,inf])` (line 92):
half-open intervals, right edge included, left edge excluded; a value on no
interval (in particular 0, or a negative value) gets no label. -/
def volumeCut (a : ℚ) : Option String :=
  if 0 < a ∧ a ≤ 100 then some "Very Small"
  else if 100 < a ∧ a ≤ 500 then some "Small"
  else if 500 < a ∧ a ≤ 2000 then some "Medium"
  else if 2000 < a ∧ a ≤ 10000 then some "Large"
  else if 10000 < a then some "Very Large"
  else none

/-- Lift of `volumeCut` to a nullable cell: `pd.cut` maps NaN to NaN. -/
def volumeCutO : Option ℚ → Option String
  | none => none
  | some a => volumeCut a

/-- Fraud-risk buckets of `pd.cut(bins=[0,30,70,100])` (line 99). -/
def fraudCut (v : ℚ) : Option String :=
  if 0 < v ∧ v ≤ 30 then some "Low Risk"
  else if 30 < v ∧ v ≤ 70 then some "Medium Risk"
  else if 70 < v ∧ v ≤ 100 then some "High Risk"
  else none

/-- Lift of `fraudCut` to a nullable cell. -/
def fraudCutO : Option ℚ → Option String
  | none => none
  | some v => fraudCut v

/-- The static city-to-region dictionary `kenyan_regions` (lines 106-117). -/
def kenyanRegions : List (String × String) :=
  [("Nairobi", "Central Kenya"), ("Mombasa", "Coastal Kenya"),
   ("Kisumu", "Western Kenya"), ("Nakuru", "Rift Valley"),
   ("Eldoret", "Rift Valley"), ("Kisii", "Western Kenya"),
   ("Kitale", "Rift Valley"), ("Garissa", "North Eastern"),
   ("Thika", "Central Kenya"), ("Malindi", "Coastal Kenya")]

/-- Region of a location cell: `.map(kenyan_regions).fillna('Other Region')`
(lines 119-120); a null or unknown location maps to "Other Region". -/
def regionOf (loc : Option String) : String :=
  match loc with
  | none => "Other Region"
  | some l =>
    match List.lookup l kenyanRegions with
    | some reg => reg
    | none => "Other Region"

/-! ### Validation (`validate_data`, lines 16-35) -/

/-- Diagnostic summary returned by `validate_data`.  `dtypes` records the
domain of the inferred-dtype mapping, i.e. the present columns. -/
structure Summary where
  null_values : List (String × Nat)
  dtypes : List String
  duplicate_ids : Nat
  negative_amounts : Nat
deriving DecidableEq, Repr

/-- Whether the cell of column `c` in row `r` is null.  Only `Option`-typed
columns can hold NaN in this embedding. -/
def isNullIn (c : String) (r : Row) : Bool :=
  match c with
  | "amount" => r.amount.isNone
  | "fee" => r.fee.isNone
  | "fraud_risk_score" => r.fraud_risk_score.isNone
  | "location" => r.location.isNone
  | "merchant_id" => r.merchant_id.isNone
  | "transaction_volume_category" => r.transaction_volume_category.isNone
  | "fraud_category" => r.fraud_category.isNone
  | "prev_transaction_time" => r.prev_transaction_time.isNone
  | "time_since_prev_transaction" => r.time_since_prev_transaction.isNone
  | _ => false

/-- Deduplication by `transaction_id`, keeping the first occurrence
(`drop_duplicates(subset=['transaction_id'], keep='first')`, line 44). -/
def dedupGo (seen : List String) : List Row → List Row
  | [] => []
  | r :: rs =>
    if r.transaction_id ∈ seen then dedupGo seen rs
    else r :: dedupGo (r.transaction_id :: seen) rs

/-- Rows with a duplicate id removed, first occurrence kept. -/
def dropDupIds (l : List Row) : List Row := dedupGo [] l

/-- Count of rows marked by `df.duplicated(subset=['transaction_id'])`:
every row whose id already occurred earlier. -/
def dupIdCount (l : List Row) : Nat := l.length - (dropDupIds l).length

/-- Count of rows with `amount < 0` (NaN compares false). -/
def negAmountCount (l : List Row) : Nat :=
  l.countP (fun r => match r.amount with
    | some a => decide (a < 0)
    | none => false)

/-- Null-count report: present columns with a positive null count. -/
def nullReport (b : Batch) : List (String × Nat) :=
  (b.present.filter (fun c => decide (0 < b.rows.countP (isNullIn c)))).map
    (fun c => (c, b.rows.countP (isNullIn c)))

/-- The summary `validate_data` assembles when it succeeds. -/
def summaryOf (b : Batch) : Summary :=
  ⟨nullReport b, b.present, dupIdCount b.rows, negAmountCount b.rows⟩

/-- Embeds `TransactionTransformer.validate_data` (lines 16-35): null counts
and dtypes never raise; `duplicated(subset=['transaction_id'])` needs the id
column; `df['amount'] < 0` needs the amount column. -/
def validate_data (b : Batch) : Except String Summary :=
  if "transaction_id" ∈ b.present then
    if "amount" ∈ b.present then .ok (summaryOf b)
    else .error "amount"
  else .error "transaction_id"

/-! ### Cleaning (`clean_data`, lines 37-77) -/

/-- Median of a list of rationals, pandas style: NaNs were dropped by the
caller, values are sorted, the middle value (odd length) or the mean of the
two middle values (even length) is returned; empty input gives NaN. -/
def insSortQ (a : ℚ) : List ℚ → List ℚ
  | [] => [a]
  | x :: xs => if a ≤ x then a :: x :: xs else x :: insSortQ a xs

/-- Sorts rationals ascending (helper for `medianOf`). -/
def sortQ : List ℚ → List ℚ
  | [] => []
  | a :: as => insSortQ a (sortQ as)

/-- Exact mean of two rationals, (x + y) / 2 written as one reduced
fraction via `Rat.divInt` for kernel computability. -/
def qavg (x y : ℚ) : ℚ :=
  Rat.divInt (x.num * (y.den : ℤ) + y.num * (x.den : ℤ))
    ((x.den : ℤ) * (y.den : ℤ) * 2)

/-- Median as computed by `Series.median()` (NaN-skipping handled by the
caller passing only the non-null cells): the middle value for odd length,
the mean of the two middle values for even length. -/
def medianOf (l : List ℚ) : Option ℚ :=
  let s := sortQ l
  if s.length = 0 then none
  else if s.length % 2 = 1 then some (s.getD (s.length / 2) 0)
  else some (qavg (s.getD (s.length / 2 - 1) 0) (s.getD (s.length / 2) 0))

/-- Lexicographic comparison of character lists by Unicode code point:
the Python string order that pandas sorting and comparison use. -/
def charListLt : List Char → List Char → Bool
  | [], [] => false
  | [], _ :: _ => true
  | _ :: _, [] => false
  | a :: as, b :: bs =>
    if a.toNat < b.toNat then true
    else if b.toNat < a.toNat then false
    else charListLt as bs

/-- Insertion step for sorting candidate strings ascending. -/
def insSortStr (a : String) : List String → List String
  | [] => [a]
  | x :: xs => if charListLt x.data a.data then x :: insSortStr a xs else a :: x :: xs

/-- Sorts strings ascending (helper for `modeOf`). -/
def sortStr : List String → List String
  | [] => []
  | a :: as => insSortStr a (sortStr as)

/-- Most frequent value of `Series.mode()` followed by `[0]`: pandas returns
the modes sorted ascending, so ties resolve to the smallest value; an empty
(all-null) column has no mode. -/
def modeOf (l : List String) : Option String :=
  (sortStr l.dedup).foldl
    (fun best c =>
      match best with
      | none => some c
      | some b => if l.count b < l.count c then some c else some b)
    none

/-- `df['amount'].fillna(df['amount'].median())` (line 53). -/
def fillAmount (l : List Row) : List Row :=
  let m := medianOf (l.filterMap (·.amount))
  l.map (fun r => { r with amount := match r.amount with
    | some a => some a
    | none => m })

/-- `df['fee'].fillna(df['fee'].median())` (line 53). -/
def fillFee (l : List Row) : List Row :=
  let m := medianOf (l.filterMap (·.fee))
  l.map (fun r => { r with fee := match r.fee with
    | some a => some a
    | none => m })

/-- `df['fraud_risk_score'].fillna(0)` (line 51). -/
def fillScore (l : List Row) : List Row :=
  l.map (fun r => { r with fraud_risk_score := some (r.fraud_risk_score.getD 0) })

/-- `df['time_since_prev_transaction'].fillna(median)` — this numeric column
is median-filled like any other when it is present on the input (line 53). -/
def fillTime (l : List Row) : List Row :=
  let m := medianOf (l.filterMap (·.time_since_prev_transaction))
  l.map (fun r => { r with time_since_prev_transaction :=
    match r.time_since_prev_transaction with
    | some a => some a
    | none => m })

/-- Mode-fill of the `location` column (lines 59-63): only when some cell is
null and the column has a mode. -/
def fillLoc (l : List Row) : List Row :=
  if l.any (fun r => r.location.isNone) then
    match modeOf (l.filterMap (·.location)) with
    | some m => l.map (fun r => { r with location := some (r.location.getD m) })
    | none => l
  else l

/-- Mode-fill of the `merchant_id` column (lines 59-63). -/
def fillMerchant (l : List Row) : List Row :=
  if l.any (fun r => r.merchant_id.isNone) then
    match modeOf (l.filterMap (·.merchant_id)) with
    | some m => l.map (fun r => { r with merchant_id := some (r.merchant_id.getD m) })
    | none => l
  else l

/-- `df[df['amount'] >= 0]` (line 66); a NaN amount compares false and the
row is dropped. -/
def filterNonneg (l : List Row) : List Row :=
  l.filter (fun r => match r.amount with
    | some a => decide (0 ≤ a)
    | none => false)

/-- `df['fraud_risk_score'].clip(0, 100)` (line 72) on one cell. -/
def clipQ (v : ℚ) : ℚ := max 0 (min 100 v)

/-- Clip of the score column; `clip` leaves NaN as NaN. -/
def clipScore (l : List Row) : List Row :=
  l.map (fun r => { r with fraud_risk_score := r.fraud_risk_score.map clipQ })

/-- Embeds `TransactionTransformer.clean_data` (lines 37-77).  Numeric
columns are median-filled (`fraud_risk_score` zero-filled), object columns
mode-filled; negative-amount rows are dropped after imputation; the score is
clamped to [0, 100].  Each unconditional column access is guarded by the
presence check that stands in for the `KeyError` the source would raise; the
per-column fills only run when their column exists, mirroring the loops over
`select_dtypes` results.  The derived numeric and object columns that can be
present on a canonical batch (`year`, `month`, `day_of_week`, `hour_of_day`,
`is_weekend`, `is_suspicious_velocity`, `sender_region`, ...) are non-null by
construction, so their fills are identities and are not spelled out; of the
nullable columns, `time_since_prev_transaction` is numeric (median-filled),
`location` and `merchant_id` are object (mode-filled), and
`transaction_volume_category` and `fraud_category` have pandas Categorical
dtype, which `select_dtypes(include=['object'])` does not select, so they are
never filled.  `prev_transaction_time` has datetime dtype: neither numeric
nor object, never filled. -/
def cleanFills (p : List String) (l1 : List Row) : List Row :=
  let l2 := if "amount" ∈ p then fillAmount l1 else l1
  let l3 := if "fee" ∈ p then fillFee l2 else l2
  let l4 := if "fraud_risk_score" ∈ p then fillScore l3 else l3
  let l5 := if "time_since_prev_transaction" ∈ p then fillTime l4 else l4
  let l6 := if "location" ∈ p then fillLoc l5 else l5
  if "merchant_id" ∈ p then fillMerchant l6 else l6

def clean_data (b : Batch) : Except String Batch :=
  if "transaction_id" ∈ b.present then
    let l7 := cleanFills b.present (dropDupIds b.rows)
    if "amount" ∈ b.present then
      let l8 := filterNonneg l7
      if "transaction_date" ∈ b.present then
        if "fraud_risk_score" ∈ b.present then
          .ok ⟨b.present, clipScore l8⟩
        else .error "fraud_risk_score"
      else .error "transaction_date"
    else .error "amount"
  else .error "transaction_id"

/-! ### Enrichment (`enrich_data`, lines 79-134) -/

/-- Pointwise derived features (lines 84-120): calendar decomposition,
amount and fraud bucketing, region lookup.  Reads only raw fields, writes
only derived fields. -/
def deriveRow (r : Row) : Row :=
  { r with
    date_part_date := dayNumber r.transaction_date
    year := yearOf r.transaction_date
    month := monthOf r.transaction_date
    day_of_week := dowMon0 r.transaction_date
    hour_of_day := hourOf r.transaction_date
    is_weekend := if 5 ≤ dowMon0 r.transaction_date then 1 else 0
    transaction_volume_category := volumeCutO r.amount
    fraud_category := fraudCutO r.fraud_risk_score
    sender_region := regionOf r.location
    receiver_region := regionOf r.location }

/-- Sort key of `df.sort_values(['sender_phone', 'transaction_date'])`. -/
def keyOf (r : Row) : String × ℤ := (r.sender_phone, r.transaction_date)

/-- Lexicographic order on sort keys: the sender phone strings are compared
in the Python string order (`charListLt`); equivalent senders compare by
timestamp. -/
def kle (p q : String × ℤ) : Prop :=
  charListLt p.1.data q.1.data = true ∨
    (charListLt p.1.data q.1.data = false ∧ charListLt q.1.data p.1.data = false ∧
      p.2 ≤ q.2)

instance : ∀ p q, Decidable (kle p q) := fun p q => by
  unfold kle; exact inferInstance

/-- Stable insertion used by `sortRows`: a row moves left past strictly
larger keys only, so equal keys keep their original relative order, matching
the stable multi-key lexsort of `sort_values` (line 123). -/
def insertS (r : Row) : List Row → List Row
  | [] => [r]
  | x :: xs => if kle (keyOf r) (keyOf x) then r :: x :: xs else x :: insertS r xs

/-- Stable sort by (sender_phone, transaction_date) ascending. -/
def sortRows : List Row → List Row
  | [] => []
  | r :: rs => insertS r (sortRows rs)

/-- Elapsed minutes between two timestamps (line 127):
`total_seconds() / 60`, as the exact rational (d - p)/60, written with
`Rat.divInt` (the fraction constructor) for kernel computability. -/
def gapMin (d p : ℤ) : ℚ := Rat.divInt (d - p) 60

/-- Writes the three velocity fields of a row given the previous same-sender
timestamp (lines 124-130): `prev_transaction_time` is the shifted date,
`time_since_prev_transaction` its gap in minutes (NaN propagates), and
`is_suspicious_velocity` is `(gap < 5).astype(int)` with NaN counting 0. -/
def setVel (r : Row) (p : Option ℤ) : Row :=
  { r with
    prev_transaction_time := p
    time_since_prev_transaction := p.map (fun q => gapMin r.transaction_date q)
    is_suspicious_velocity :=
      match p.map (fun q => gapMin r.transaction_date q) with
      | some m => if m < 5 then 1 else 0
      | none => 0 }

/-- Accumulator update for the per-sender shift. -/
def updM (m : String → Option ℤ) (s : String) (d : ℤ) : String → Option ℤ :=
  fun t => if t = s then some d else m t

/-- `groupby('sender_phone')['transaction_date'].shift(1)` and the two fields
derived from it, as a left-to-right pass carrying the last date seen per
sender. -/
def velA (m : String → Option ℤ) : List Row → List Row
  | [] => []
  | r :: rs =>
    setVel r (m r.sender_phone) ::
      velA (updM m r.sender_phone r.transaction_date) rs

/-- Columns created by `enrich_data`, in assignment order. -/
def derivedColumns : List String :=
  ["date_part_date", "year", "month", "day_of_week", "hour_of_day",
   "is_weekend", "transaction_volume_category", "fraud_category",
   "sender_region", "receiver_region", "prev_transaction_time",
   "time_since_prev_transaction", "is_suspicious_velocity"]

/-- Adds a column name if absent (column assignment appends on first write). -/
def addCol (p : List String) (c : String) : List String :=
  if c ∈ p then p else p ++ [c]

/-- Present-column list after enrichment. -/
def addDerivedCols (p : List String) : List String :=
  derivedColumns.foldl addCol p

/-- Embeds `TransactionTransformer.enrich_data` (lines 79-134): the presence
checks stand for the `KeyError` of the first access of each source column, in
source order (`transaction_date` line 84, `amount` line 92,
`fraud_risk_score` line 99, `location` line 119, `sender_phone` line 123);
then pointwise derivation, the stable sort, and the per-sender shift. -/
def enrich_data (b : Batch) : Except String Batch :=
  if "transaction_date" ∈ b.present then
    if "amount" ∈ b.present then
      if "fraud_risk_score" ∈ b.present then
        if "location" ∈ b.present then
          if "sender_phone" ∈ b.present then
            .ok ⟨addDerivedCols b.present,
                 velA (fun _ => none) (sortRows (b.rows.map deriveRow))⟩
          else .error "sender_phone"
        else .error "location"
      else .error "fraud_risk_score"
    else .error "amount"
  else .error "transaction_date"

/-! ### The pipeline (`transform_data`, lines 136-173) -/

/-- Default written by the backfill loop (lines 162-167) for one missing
canonical column: 0 for the numeric columns `fee` and `fraud_risk_score`,
empty string for the string columns.  The raw columns `transaction_id`,
`amount`, `transaction_date`, `sender_phone`, `location`,
`fraud_risk_score` and every derived column are necessarily present after a
successful `enrich_data` (an absence would have raised earlier), so only the
nine optional raw columns can reach their branch; the catch-all arm is never
exercised on a reachable input. -/
def setDefault (c : String) (r : Row) : Row :=
  match c with
  | "fee" => { r with fee := some 0 }
  | "fraud_risk_score" => { r with fraud_risk_score := some 0 }
  | "receiver_phone" => { r with receiver_phone := "" }
  | "transaction_type" => { r with transaction_type := "" }
  | "currency" => { r with currency := "" }
  | "status" => { r with status := "" }
  | "merchant_id" => { r with merchant_id := some "" }
  | "reference_number" => { r with reference_number := "" }
  | "channel" => { r with channel := "" }
  | "category" => { r with category := "" }
  | _ => r

/-- The backfill loop of `transform_data` (lines 162-167): for each expected
column absent from the enriched frame, write its default into every row. -/
def backfillRows (p : List String) (l : List Row) : List Row :=
  expected_columns.foldl
    (fun acc c => if c ∈ p then acc else acc.map (setDefault c)) l

/-- Embeds `TransactionTransformer.transform_data` (lines 136-173): validate
(log-only), clean, enrich, backfill missing canonical columns, reindex to the
fixed 26-column order. -/
def transform_data (b : Batch) : Except String Batch :=
  match validate_data b with
  | .error e => .error e
  | .ok _ =>
    match clean_data b with
    | .error e => .error e
    | .ok c =>
      match enrich_data c with
      | .error e => .error e
      | .ok e => .ok ⟨expected_columns, backfillRows e.present e.rows⟩

/-- Row-level sort order. -/
def rle (a b : Row) : Prop := kle (keyOf a) (keyOf b)

instance : ∀ a b, Decidable (rle a b) := fun a b => by
  unfold rle; exact inferInstance

/-- Sequence of previous-timestamp values for a same-sender slice: the first
row has none, each later row has the previous row's timestamp. -/
def prevSeq (p : Option ℤ) : List Row → List (Option ℤ)
  | [] => []
  | r :: rs => p :: prevSeq (some r.transaction_date) rs

/-- Correspondence between an input row and the output row it produced:
identifier, sender and date survive unchanged, and a non-null amount
survives unchanged. -/
def RowRel (x r : Row) : Prop :=
  r.transaction_id = x.transaction_id ∧ r.sender_phone = x.sender_phone ∧
  r.transaction_date = x.transaction_date ∧
  (∀ a : ℚ, x.amount = some a → r.amount = some a)

/-- Each output row arises from some source row, preserving `RowRel`. -/
def Covers (src out : List Row) : Prop := ∀ r ∈ out, ∃ x ∈ src, RowRel x r

/-- Per-row form of the backfill loop. -/
def applyDefs (p : List String) (r : Row) : Row :=
  expected_columns.foldl (fun r c => if c ∈ p then r else setDefault c r) r

/-- The rows a successful `transform_data` run returns, as a function of the
input presence list and rows. -/
def outRows (p : List String) (l : List Row) : List Row :=
  (velA (fun _ => none)
    (sortRows ((clipScore (filterNonneg (cleanFills p (dropDupIds l)))).map
      deriveRow))).map (applyDefs (addDerivedCols p))

/-! ### Concrete example batches -/

instance {ε α : Type} [DecidableEq ε] [DecidableEq α] : DecidableEq (Except ε α)
  | .error a, .error b =>
    if h : a = b then isTrue (by rw [h])
    else isFalse (fun he => h (Except.error.inj he))
  | .error _, .ok _ => isFalse (fun he => Except.noConfusion he)
  | .ok _, .error _ => isFalse (fun he => Except.noConfusion he)
  | .ok a, .ok b =>
    if h : a = b then isTrue (by rw [h])
    else isFalse (fun he => h (Except.ok.inj he))

/-- Builds a raw input row; the remaining raw cells take fixed sample
values and the derived cells their defaults. -/
def mkRow (id s : String) (amt : Option ℚ) (d : ℤ) (score : Option ℚ)
    (loc : Option String) : Row :=
  { transaction_id := id, sender_phone := s, receiver_phone := "254700000002",
    transaction_type := "P2P_TRANSFER", amount := amt, fee := some 1,
    transaction_date := d, location := loc, currency := "KES",
    status := "COMPLETED", fraud_risk_score := score, merchant_id := none,
    reference_number := "REF", channel := "APP", category := "P2P" }

/-- A row with every field at a default, for list indexing. -/
def defaultRow : Row := mkRow "" "" none 0 none none

/-- Five-row sample batch: a duplicated id (differing amount and score), a
missing fraud score, a zero amount with a missing location and an
out-of-range score, and a negative amount.  The three same-sender survivors
are timestamped 2024-01-01 10:00, 10:03 and 10:10 UTC, the worked example
of the velocity rules. -/
def exBmain : Batch :=
  ⟨rawColumns,
   [mkRow "T1" "254700000001" (some 1000) 1704103200 (some 15) (some "Nairobi"),
    mkRow "T1" "254700000001" (some 999) 1704103200 (some 80) (some "Nairobi"),
    mkRow "T2" "254700000001" (some 50) 1704103380 none (some "Unknown"),
    mkRow "T3" "254700000001" (some 0) 1704103800 (some 150) none,
    mkRow "T4" "254700000009" (some (-5)) 1704103500 (some 20) (some "Thika")]⟩

/-- The canonical batch `transform_data` produces from `exBmain`. -/
def exO : Batch := (transform_data exBmain).toOption.getD ⟨[], []⟩

/-- One-row batch whose transaction has amount exactly 0. -/
def zeroAmountBatch : Batch :=
  ⟨rawColumns,
   [mkRow "Z1" "254700000003" (some 0) 1704103200 (some 50) (some "Nairobi")]⟩

/-- The canonical batch produced from `zeroAmountBatch`. -/
def exOzero : Batch := (transform_data zeroAmountBatch).toOption.getD ⟨[], []⟩

/-- Batch carrying only the three columns the specification calls required:
transaction_id, amount, transaction_date. -/
def minimalColsBatch : Batch :=
  ⟨["transaction_id", "amount", "transaction_date"],
   [mkRow "M1" "254700000004" (some 10) 1704103200 none none]⟩

/-- Batch whose `amount` column is absent. -/
def noAmountBatch : Batch :=
  ⟨["transaction_id", "transaction_date"],
   [mkRow "N1" "254700000005" (some 10) 1704103200 (some 5) none]⟩

/-- Zero-row batch with the full Raw Transaction Record column set. -/
def emptyRawBatch : Batch := ⟨rawColumns, []⟩

/-- Three-row single-column-tie batch for the stable-sort claim: two rows of
sender 254700000006 share the same timestamp (a tie, ids U2 then U3 in
arrival order) and a third row of a smaller sender arrives last. -/
def exB2 : Batch :=
  ⟨rawColumns,
   [mkRow "U2" "254700000006" (some 10) 1704103200 (some 5) (some "Nairobi"),
    mkRow "U3" "254700000006" (some 20) 1704103200 (some 5) (some "Nairobi"),
    mkRow "U1" "254700000000" (some 30) 1704103500 (some 5) (some "Thika")]⟩

/-- The enriched batch produced from `exB2`. -/
def exE2 : Batch := (enrich_data exB2).toOption.getD ⟨[], []⟩

/-! ### Pointwise lemmas -/

lemma deriveRow_idem (r : Row) : deriveRow (deriveRow r) = deriveRow r := rfl

lemma deriveRow_keyOf (r : Row) : keyOf (deriveRow r) = keyOf r := rfl

lemma setVel_keyOf (r : Row) (p : Option ℤ) : keyOf (setVel r p) = keyOf r := rfl

lemma setVel_setVel (r : Row) (p q : Option ℤ) :
    setVel (setVel r p) q = setVel r q := rfl

lemma deriveRow_setVel (r : Row) (p : Option ℤ) :
    deriveRow (setVel r p) = setVel (deriveRow r) p := rfl

lemma charListLt_irrefl : ∀ (a : List Char), charListLt a a = false := by
  intro a
  induction a with
  | nil => rfl
  | cons x xs ih =>
    unfold charListLt
    rw [if_neg (Nat.lt_irrefl _), if_neg (Nat.lt_irrefl _)]
    exact ih

lemma charListLt_trans : ∀ {a b c : List Char}, charListLt a b = true →
    charListLt b c = true → charListLt a c = true := by
  intro a
  induction a with
  | nil =>
    intro b c h1 h2
    cases b with
    | nil => cases h1
    | cons hb bs =>
      cases c with
      | nil => cases h2
      | cons hc cs => rfl
  | cons ha as ih =>
    intro b c h1 h2
    cases b with
    | nil => cases h1
    | cons hb bs =>
      cases c with
      | nil => cases h2
      | cons hc cs =>
        unfold charListLt at h1 h2 ⊢
        by_cases e1 : ha.toNat < hb.toNat
        · by_cases e2 : hb.toNat < hc.toNat
          · rw [if_pos (Nat.lt_trans e1 e2)]
          · rw [if_neg e2] at h2
            by_cases e3 : hc.toNat < hb.toNat
            · rw [if_pos e3] at h2; cases h2
            · have heq : hb.toNat = hc.toNat := by omega
              rw [if_pos (heq ▸ e1)]
        · rw [if_neg e1] at h1
          by_cases e1' : hb.toNat < ha.toNat
          · rw [if_pos e1'] at h1; cases h1
          · rw [if_neg e1'] at h1
            have heq : ha.toNat = hb.toNat := by omega
            by_cases e2 : hb.toNat < hc.toNat
            · rw [if_pos (heq ▸ e2)]
            · rw [if_neg e2] at h2
              by_cases e3 : hc.toNat < hb.toNat
              · rw [if_pos e3] at h2; cases h2
              · rw [if_neg e3] at h2
                rw [if_neg (heq ▸ e2), if_neg (fun h => e3 (heq ▸ h))]
                exact ih h1 h2

lemma charListLt_equiv_congr : ∀ {a b : List Char}, charListLt a b = false →
    charListLt b a = false →
    ∀ c, charListLt a c = charListLt b c ∧ charListLt c a = charListLt c b := by
  intro a
  induction a with
  | nil =>
    intro b h1 h2 c
    cases b with
    | nil => exact ⟨rfl, rfl⟩
    | cons hb bs => cases h1
  | cons ha as ih =>
    intro b h1 h2 c
    cases b with
    | nil => cases h2
    | cons hb bs =>
      unfold charListLt at h1 h2
      by_cases e1 : ha.toNat < hb.toNat
      · rw [if_pos e1] at h1; cases h1
      · rw [if_neg e1] at h1
        by_cases e2 : hb.toNat < ha.toNat
        · rw [if_pos e2] at h2; cases h2
        · rw [if_neg e2] at h1
          rw [if_neg e2, if_neg e1] at h2
          have heq : ha.toNat = hb.toNat := by omega
          cases c with
          | nil => exact ⟨rfl, rfl⟩
          | cons hc cs =>
            rcases ih h1 h2 cs with ⟨ih1, ih2⟩
            constructor
            · show charListLt (ha :: as) (hc :: cs)
                = charListLt (hb :: bs) (hc :: cs)
              unfold charListLt
              rw [heq, ih1]
            · show charListLt (hc :: cs) (ha :: as)
                = charListLt (hc :: cs) (hb :: bs)
              unfold charListLt
              rw [heq, ih2]

lemma kle_refl (p : String × ℤ) : kle p p :=
  Or.inr ⟨charListLt_irrefl _, charListLt_irrefl _, le_refl _⟩

lemma kle_total (p q : String × ℤ) : kle p q ∨ kle q p := by
  cases c1 : charListLt p.1.data q.1.data with
  | true => exact Or.inl (Or.inl c1)
  | false =>
    cases c2 : charListLt q.1.data p.1.data with
    | true => exact Or.inr (Or.inl c2)
    | false =>
      rcases le_total p.2 q.2 with h | h
      · exact Or.inl (Or.inr ⟨c1, c2, h⟩)
      · exact Or.inr (Or.inr ⟨c2, c1, h⟩)

lemma kle_trans {p q s : String × ℤ} (h1 : kle p q) (h2 : kle q s) : kle p s := by
  rcases h1 with h1 | ⟨e1, e1', l1⟩
  · rcases h2 with h2 | ⟨e2, e2', _⟩
    · exact Or.inl (charListLt_trans h1 h2)
    · exact Or.inl (((charListLt_equiv_congr e2 e2' p.1.data).2).symm.trans h1)
  · rcases h2 with h2 | ⟨e2, e2', l2⟩
    · exact Or.inl (((charListLt_equiv_congr e1 e1' s.1.data).1).trans h2)
    · refine Or.inr ⟨?_, ?_, l1.trans l2⟩
      · rw [(charListLt_equiv_congr e1 e1' s.1.data).1]
        exact e2
      · rw [← (charListLt_equiv_congr e2 e2' p.1.data).1]
        exact e1' 

lemma kle_of_not_kle {p q : String × ℤ} (h : ¬ kle p q) : kle q p :=
  (kle_total p q).resolve_left h

lemma ne_of_not_kle {p q : String × ℤ} (h : ¬ kle p q) : p ≠ q := by
  intro e; exact h (e ▸ kle_refl p)

/-! ### Sorting lemmas -/

lemma insertS_perm (r : Row) (t : List Row) : List.Perm (insertS r t) (r :: t) := by
  induction t with
  | nil => exact List.Perm.refl _
  | cons x xs ih =>
    unfold insertS
    by_cases h : kle (keyOf r) (keyOf x)
    · rw [if_pos h]
    · rw [if_neg h]
      exact (ih.cons x).trans (List.Perm.swap r x xs)

lemma sortRows_perm (l : List Row) : List.Perm (sortRows l) l := by
  induction l with
  | nil => exact List.Perm.refl _
  | cons r rs ih =>
    exact (insertS_perm r (sortRows rs)).trans (ih.cons r)

lemma mem_insertS {a r : Row} {t : List Row} :
    a ∈ insertS r t ↔ a = r ∨ a ∈ t := by
  rw [(insertS_perm r t).mem_iff, List.mem_cons]

lemma pairwise_insertS {r : Row} {t : List Row} (h : t.Pairwise rle) :
    (insertS r t).Pairwise rle := by
  induction t with
  | nil => simp [insertS, List.pairwise_singleton]
  | cons x xs ih =>
    unfold insertS
    by_cases hk : kle (keyOf r) (keyOf x)
    · rw [if_pos hk]
      refine List.Pairwise.cons ?_ h
      intro b hb
      rcases List.mem_cons.mp hb with rfl | hb
      · exact hk
      · exact kle_trans hk (List.rel_of_pairwise_cons h hb)
    · rw [if_neg hk]
      refine List.Pairwise.cons ?_ (ih h.of_cons)
      intro b hb
      rcases mem_insertS.mp hb with rfl | hb
      · exact kle_of_not_kle hk
      · exact List.rel_of_pairwise_cons h hb

lemma sortRows_pairwise (l : List Row) : (sortRows l).Pairwise rle := by
  induction l with
  | nil => simp [sortRows]
  | cons r rs ih => exact pairwise_insertS ih

lemma sortRows_eq_self {l : List Row} (h : l.Pairwise rle) : sortRows l = l := by
  induction l with
  | nil => rfl
  | cons r rs ih =>
    unfold sortRows
    rw [ih h.of_cons]
    cases rs with
    | nil => rfl
    | cons x xs =>
      have hk : kle (keyOf r) (keyOf x) :=
        List.rel_of_pairwise_cons h (List.mem_cons_self x xs)
      unfold insertS
      rw [if_pos hk]

lemma filter_insertS {p : Row → Bool} {k : String × ℤ}
    (hp : ∀ a, p a = true ↔ keyOf a = k) (r : Row) (t : List Row) :
    (insertS r t).filter p = if p r then r :: t.filter p else t.filter p := by
  induction t with
  | nil => cases hpr : p r <;> simp [insertS, List.filter, hpr]
  | cons x xs ih =>
    unfold insertS
    by_cases hk : kle (keyOf r) (keyOf x)
    · rw [if_pos hk, List.filter_cons]
    · rw [if_neg hk]
      cases hx : p x with
      | true =>
        have hr : p r = false := by
          cases hpr : p r with
          | false => rfl
          | true =>
            exact absurd (((hp r).mp hpr).trans ((hp x).mp hx).symm)
              (ne_of_not_kle hk)
        simp [List.filter_cons, hx, hr, ih]
      | false =>
        simp only [List.filter_cons, hx, Bool.false_eq_true, if_false, ih]

lemma sortRows_filter {p : Row → Bool} {k : String × ℤ}
    (hp : ∀ a, p a = true ↔ keyOf a = k) (l : List Row) :
    (sortRows l).filter p = l.filter p := by
  induction l with
  | nil => rfl
  | cons r rs ih =>
    unfold sortRows
    rw [filter_insertS hp, List.filter_cons, ih]

/-! ### Velocity (groupby shift) lemmas -/

lemma setVel_sender (r : Row) (p : Option ℤ) :
    (setVel r p).sender_phone = r.sender_phone := rfl

lemma setVel_date (r : Row) (p : Option ℤ) :
    (setVel r p).transaction_date = r.transaction_date := rfl

lemma velA_map_proj {α : Type} (f : Row → α)
    (hf : ∀ r p, f (setVel r p) = f r) :
    ∀ (m : String → Option ℤ) (l : List Row), (velA m l).map f = l.map f := by
  intro m l
  induction l generalizing m with
  | nil => rfl
  | cons r rs ih => simp [velA, hf, ih]

lemma mem_velA {a : Row} :
    ∀ {m : String → Option ℤ} {l : List Row}, a ∈ velA m l →
      ∃ x ∈ l, ∃ p, a = setVel x p := by
  intro m l
  induction l generalizing m with
  | nil => intro h; cases h
  | cons r rs ih =>
    intro h
    rcases List.mem_cons.mp h with h | h
    · exact ⟨r, List.mem_cons_self r rs, m r.sender_phone, h⟩
    · rcases ih h with ⟨x, hx, p, hp⟩
      exact ⟨x, List.mem_cons_of_mem r hx, p, hp⟩

lemma velA_map {g : Row → Row}
    (hs : ∀ r, (g r).sender_phone = r.sender_phone)
    (hd : ∀ r, (g r).transaction_date = r.transaction_date)
    (hc : ∀ r p, g (setVel r p) = setVel (g r) p) :
    ∀ (m : String → Option ℤ) (l : List Row),
      velA m (l.map g) = (velA m l).map g := by
  intro m l
  induction l generalizing m with
  | nil => rfl
  | cons r rs ih => simp [velA, hs, hd, hc, ih]

lemma velA_override {g : Row → Row}
    (hs : ∀ r, (g r).sender_phone = r.sender_phone)
    (hd : ∀ r, (g r).transaction_date = r.transaction_date)
    (hover : ∀ r p, setVel (g r) p = setVel r p) :
    ∀ (m : String → Option ℤ) (l : List Row), velA m (l.map g) = velA m l := by
  intro m l
  induction l generalizing m with
  | nil => rfl
  | cons r rs ih => simp [velA, hs, hd, hover, ih]

lemma velA_velA : ∀ (m : String → Option ℤ) (l : List Row),
    velA m (velA m l) = velA m l := by
  intro m l
  induction l generalizing m with
  | nil => rfl
  | cons r rs ih =>
    show velA m (setVel r (m r.sender_phone) :: velA _ rs) = _
    rw [velA, setVel_sender, setVel_date, setVel_setVel, ih]
    rfl

lemma velA_prev_filter (s : String) :
    ∀ (m : String → Option ℤ) (l : List Row),
      ((velA m l).filter (fun r => decide (r.sender_phone = s))).map
          (·.prev_transaction_time) =
        prevSeq (m s) (l.filter (fun r => decide (r.sender_phone = s))) := by
  intro m l
  induction l generalizing m with
  | nil => rfl
  | cons r rs ih =>
    rw [velA, List.filter_cons, List.filter_cons]
    by_cases h : r.sender_phone = s
    · have hd : decide ((setVel r (m r.sender_phone)).sender_phone = s) = true := by
        rw [setVel_sender]; simp [h]
      have hd' : decide (r.sender_phone = s) = true := by simp [h]
      rw [hd, hd', if_pos rfl, if_pos rfl, List.map_cons, prevSeq, ih]
      have : updM m r.sender_phone r.transaction_date s = some r.transaction_date := by
        simp [updM, h]
      rw [this]
      have hp : (setVel r (m r.sender_phone)).prev_transaction_time
          = m r.sender_phone := rfl
      rw [hp, h]
    · have hd : decide ((setVel r (m r.sender_phone)).sender_phone = s) = false := by
        rw [setVel_sender]; simp [h]
      have hd' : decide (r.sender_phone = s) = false := by simp [h]
      rw [hd, hd']
      simp only [Bool.false_eq_true, if_false]
      rw [ih]
      have : updM m r.sender_phone r.transaction_date s = m s := by
        simp [updM]
        intro e; exact absurd e.symm h
      rw [this]

lemma velA_time_susp {a : Row} {m : String → Option ℤ} {l : List Row}
    (ha : a ∈ velA m l) :
    a.time_since_prev_transaction
        = a.prev_transaction_time.map (fun q => gapMin a.transaction_date q) ∧
      a.is_suspicious_velocity
        = (match a.time_since_prev_transaction with
           | some x => if x < 5 then 1 else 0
           | none => 0) := by
  rcases mem_velA ha with ⟨x, _, p, rfl⟩
  constructor
  · rfl
  · rfl

/-! ### Deduplication lemmas -/

lemma dedupGo_sublist (seen : List String) (l : List Row) :
    (dedupGo seen l).Sublist l := by
  induction l generalizing seen with
  | nil => simp [dedupGo]
  | cons r rs ih =>
    unfold dedupGo
    by_cases h : r.transaction_id ∈ seen
    · rw [if_pos h]; exact (ih seen).cons r
    · rw [if_neg h]; exact (ih _).cons₂ r

lemma dedupGo_spec (l : List Row) : ∀ (seen : List String),
    ∀ r ∈ dedupGo seen l, r.transaction_id ∉ seen ∧
      l.find? (fun x => decide (x.transaction_id = r.transaction_id)) = some r := by
  induction l with
  | nil => intro seen r hr; cases hr
  | cons x xs ih =>
    intro seen r hr
    unfold dedupGo at hr
    by_cases h : x.transaction_id ∈ seen
    · rw [if_pos h] at hr
      rcases ih seen r hr with ⟨hns, hf⟩
      have hne : x.transaction_id ≠ r.transaction_id := by
        intro e; exact hns (e ▸ h)
      refine ⟨hns, ?_⟩
      rw [List.find?_cons_of_neg _ (by simp [hne]), hf]
    · rw [if_neg h] at hr
      rcases List.mem_cons.mp hr with rfl | hr
      · exact ⟨h, by rw [List.find?_cons_of_pos _ (by simp)]⟩
      · rcases ih _ r hr with ⟨hns, hf⟩
        have hne : x.transaction_id ≠ r.transaction_id := by
          intro e
          exact hns (e ▸ List.mem_cons_self _ _)
        refine ⟨fun hs => hns (List.mem_cons_of_mem _ hs), ?_⟩
        rw [List.find?_cons_of_neg _ (by simp [hne]), hf]

lemma dedupGo_nodup (l : List Row) : ∀ (seen : List String),
    ((dedupGo seen l).map (·.transaction_id)).Nodup := by
  induction l with
  | nil => intro seen; simp [dedupGo]
  | cons x xs ih =>
    intro seen
    unfold dedupGo
    by_cases h : x.transaction_id ∈ seen
    · rw [if_pos h]; exact ih seen
    · rw [if_neg h]
      rw [List.map_cons, List.nodup_cons]
      refine ⟨?_, ih _⟩
      intro hmem
      rcases List.mem_map.mp hmem with ⟨r, hr, he⟩
      exact (dedupGo_spec xs _ r hr).1 (he ▸ List.mem_cons_self _ _)

lemma dedupGo_eq_self (l : List Row) : ∀ (seen : List String),
    (l.map (·.transaction_id)).Nodup → (∀ r ∈ l, r.transaction_id ∉ seen) →
      dedupGo seen l = l := by
  induction l with
  | nil => intro seen _ _; rfl
  | cons x xs ih =>
    intro seen hnd hout
    unfold dedupGo
    rw [if_neg (hout x (List.mem_cons_self _ _))]
    congr 1
    refine ih _ (by rw [List.map_cons, List.nodup_cons] at hnd; exact hnd.2) ?_
    intro r hr hmem
    rcases List.mem_cons.mp hmem with he | hs
    · rw [List.map_cons, List.nodup_cons] at hnd
      exact hnd.1 (he ▸ List.mem_map.mpr ⟨r, hr, rfl⟩)
    · exact hout r (List.mem_cons_of_mem _ hr) hs

/-! ### Generic transport helpers -/

lemma map_proj_map {α : Type} {g : Row → Row} {proj : Row → α}
    (h : ∀ r, proj (g r) = proj r) (l : List Row) :
    (l.map g).map proj = l.map proj := by
  induction l with
  | nil => rfl
  | cons r rs ih => simp [h, ih]

lemma forall_mem_of_map_proj {α : Type} {P : α → Prop} {proj : Row → α}
    {l l' : List Row} (he : l'.map proj = l.map proj)
    (h : ∀ r ∈ l, P (proj r)) : ∀ r ∈ l', P (proj r) := by
  intro r hr
  have : proj r ∈ l'.map proj := List.mem_map.mpr ⟨r, hr, rfl⟩
  rw [he] at this
  rcases List.mem_map.mp this with ⟨x, hx, hpe⟩
  rw [← hpe]
  exact h x hx

lemma rowRel_self (x : Row) : RowRel x x := ⟨Eq.refl _, Eq.refl _, Eq.refl _, fun _ h => h⟩

lemma rowRel_comp {x y z : Row} (h1 : RowRel x y) (h2 : RowRel y z) :
    RowRel x z :=
  ⟨h2.1.trans h1.1, h2.2.1.trans h1.2.1, h2.2.2.1.trans h1.2.2.1,
   fun a ha => h2.2.2.2 a (h1.2.2.2 a ha)⟩

lemma covers_refl (l : List Row) : Covers l l :=
  fun r hr => ⟨r, hr, rowRel_self r⟩

lemma covers_comp {a b c : List Row} (h1 : Covers a b) (h2 : Covers b c) :
    Covers a c := by
  intro r hr
  rcases h2 r hr with ⟨y, hy, hr2⟩
  rcases h1 y hy with ⟨x, hx, hr1⟩
  exact ⟨x, hx, rowRel_comp hr1 hr2⟩

lemma covers_of_map {g : Row → Row} (h : ∀ r, RowRel r (g r)) (l : List Row) :
    Covers l (l.map g) := by
  intro r hr
  rcases List.mem_map.mp hr with ⟨x, hx, rfl⟩
  exact ⟨x, hx, h x⟩

lemma covers_of_sublist {a b : List Row} (h : b.Sublist a) : Covers a b :=
  fun r hr => ⟨r, h.mem hr, rowRel_self r⟩

lemma covers_of_perm {a b : List Row} (h : List.Perm a b) : Covers a b :=
  fun r hr => ⟨r, h.mem_iff.mpr hr, rowRel_self r⟩

/-! ### Fill and clip lemmas -/

lemma map_eq_self_of {g : Row → Row} {l : List Row}
    (h : ∀ r ∈ l, g r = r) : l.map g = l := by
  induction l with
  | nil => rfl
  | cons r rs ih =>
    rw [List.map_cons, h r (List.mem_cons_self _ _),
        ih (fun x hx => h x (List.mem_cons_of_mem _ hx))]

lemma rowUpd_amount {r : Row} {m : Option ℚ} (h : m = r.amount) :
    ({ r with amount := m } : Row) = r := by rw [h]

lemma rowUpd_fee {r : Row} {m : Option ℚ} (h : m = r.fee) :
    ({ r with fee := m } : Row) = r := by rw [h]

lemma rowUpd_score {r : Row} {m : Option ℚ} (h : m = r.fraud_risk_score) :
    ({ r with fraud_risk_score := m } : Row) = r := by rw [h]

lemma rowUpd_loc {r : Row} {m : Option String} (h : m = r.location) :
    ({ r with location := m } : Row) = r := by rw [h]

lemma rowUpd_merchant {r : Row} {m : Option String} (h : m = r.merchant_id) :
    ({ r with merchant_id := m } : Row) = r := by rw [h]

lemma insSortQ_length (a : ℚ) (l : List ℚ) :
    (insSortQ a l).length = l.length + 1 := by
  induction l with
  | nil => rfl
  | cons x xs ih =>
    unfold insSortQ
    by_cases h : a ≤ x
    · rw [if_pos h]; rfl
    · rw [if_neg h, List.length_cons, ih, List.length_cons]

lemma sortQ_length (l : List ℚ) : (sortQ l).length = l.length := by
  induction l with
  | nil => rfl
  | cons a as ih => rw [sortQ, insSortQ_length, ih, List.length_cons]

lemma medianOf_eq_none {q : List ℚ} (h : medianOf q = none) : q = [] := by
  unfold medianOf at h
  by_cases h0 : (sortQ q).length = 0
  · rw [sortQ_length] at h0
    exact List.length_eq_zero.mp h0
  · simp only [if_neg h0] at h
    by_cases h1 : (sortQ q).length % 2 = 1
    · rw [if_pos h1] at h; cases h
    · rw [if_neg h1] at h; cases h

lemma mode_fold_isSome (q : List String) :
    ∀ (cs : List String) (b : String),
      (cs.foldl (fun best c =>
        match best with
        | none => some c
        | some b => if q.count b < q.count c then some c else some b)
        (some b)).isSome := by
  intro cs
  induction cs with
  | nil => intro b; rfl
  | cons c cs ih =>
    intro b
    rw [List.foldl_cons]
    by_cases h : q.count b < q.count c
    · simp only [if_pos h]; exact ih c
    · simp only [if_neg h]; exact ih b

lemma insSortStr_length (a : String) (l : List String) :
    (insSortStr a l).length = l.length + 1 := by
  induction l with
  | nil => rfl
  | cons x xs ih =>
    unfold insSortStr
    by_cases h : charListLt x.data a.data = true
    · rw [if_pos h, List.length_cons, ih, List.length_cons]
    · rw [if_neg h]; rfl

lemma sortStr_length (l : List String) : (sortStr l).length = l.length := by
  induction l with
  | nil => rfl
  | cons a as ih => rw [sortStr, insSortStr_length, ih, List.length_cons]

lemma modeOf_eq_none {q : List String} (h : modeOf q = none) : q = [] := by
  by_contra hq
  have hd : q.dedup ≠ [] := fun e => hq ((List.dedup_eq_nil q).mp e)
  unfold modeOf at h
  rcases hm : sortStr q.dedup with _ | ⟨c, cs⟩
  · have hlen : (sortStr q.dedup).length = q.dedup.length := sortStr_length q.dedup
    rw [hm] at hlen
    exact hd (List.length_eq_zero.mp hlen.symm)
  · rw [hm, List.foldl_cons] at h
    have hs := mode_fold_isSome q cs c
    rw [h] at hs
    cases hs

lemma fillAmount_proj {α : Type} {proj : Row → α}
    (hp : ∀ (r : Row) (m : Option ℚ), proj { r with amount := m } = proj r)
    (l : List Row) : (fillAmount l).map proj = l.map proj := by
  simp only [fillAmount]
  exact map_proj_map (fun r => hp r _) l

lemma fillFee_proj {α : Type} {proj : Row → α}
    (hp : ∀ (r : Row) (m : Option ℚ), proj { r with fee := m } = proj r)
    (l : List Row) : (fillFee l).map proj = l.map proj := by
  simp only [fillFee]
  exact map_proj_map (fun r => hp r _) l

lemma fillScore_proj {α : Type} {proj : Row → α}
    (hp : ∀ (r : Row) (m : Option ℚ), proj { r with fraud_risk_score := m } = proj r)
    (l : List Row) : (fillScore l).map proj = l.map proj := by
  simp only [fillScore]
  exact map_proj_map (fun r => hp r _) l

lemma fillTime_proj {α : Type} {proj : Row → α}
    (hp : ∀ (r : Row) (m : Option ℚ),
      proj { r with time_since_prev_transaction := m } = proj r)
    (l : List Row) : (fillTime l).map proj = l.map proj := by
  simp only [fillTime]
  exact map_proj_map (fun r => hp r _) l

lemma fillLoc_proj {α : Type} {proj : Row → α}
    (hp : ∀ (r : Row) (m : Option String), proj { r with location := m } = proj r)
    (l : List Row) : (fillLoc l).map proj = l.map proj := by
  simp only [fillLoc]
  by_cases hg : l.any (fun r => r.location.isNone) = true
  · rw [if_pos hg]
    cases hm : modeOf (l.filterMap (·.location)) with
    | none => rfl
    | some m => exact map_proj_map (fun r => hp r _) l
  · rw [if_neg hg]

lemma fillMerchant_proj {α : Type} {proj : Row → α}
    (hp : ∀ (r : Row) (m : Option String), proj { r with merchant_id := m } = proj r)
    (l : List Row) : (fillMerchant l).map proj = l.map proj := by
  simp only [fillMerchant]
  by_cases hg : l.any (fun r => r.merchant_id.isNone) = true
  · rw [if_pos hg]
    cases hm : modeOf (l.filterMap (·.merchant_id)) with
    | none => rfl
    | some m => exact map_proj_map (fun r => hp r _) l
  · rw [if_neg hg]

lemma clipScore_proj {α : Type} {proj : Row → α}
    (hp : ∀ (r : Row) (m : Option ℚ), proj { r with fraud_risk_score := m } = proj r)
    (l : List Row) : (clipScore l).map proj = l.map proj := by
  simp only [clipScore]
  exact map_proj_map (fun r => hp r _) l

lemma fillAmount_eq_self {l : List Row}
    (h : ∀ r ∈ l, r.amount.isSome) : fillAmount l = l := by
  simp only [fillAmount]
  refine map_eq_self_of ?_
  intro r hr
  rcases Option.isSome_iff_exists.mp (h r hr) with ⟨a, ha⟩
  exact rowUpd_amount (by rw [ha])

lemma fillFee_eq_self {l : List Row}
    (h : (∀ r ∈ l, r.fee.isSome) ∨ (∀ r ∈ l, r.fee = none)) :
    fillFee l = l := by
  simp only [fillFee]
  refine map_eq_self_of ?_
  intro r hr
  rcases h with h | h
  · rcases Option.isSome_iff_exists.mp (h r hr) with ⟨a, ha⟩
    exact rowUpd_fee (by rw [ha])
  · have he : l.filterMap (·.fee) = [] :=
      List.filterMap_eq_nil.mpr (fun x hx => h x hx)
    rw [he]
    exact rowUpd_fee (by rw [h r hr]; rfl)

lemma fillScore_eq_self {l : List Row}
    (h : ∀ r ∈ l, r.fraud_risk_score.isSome) : fillScore l = l := by
  simp only [fillScore]
  refine map_eq_self_of ?_
  intro r hr
  rcases Option.isSome_iff_exists.mp (h r hr) with ⟨v, hv⟩
  exact rowUpd_score (by rw [hv]; rfl)

lemma fillTime_map (l : List Row) :
    fillTime l = l.map (fun r =>
      { r with time_since_prev_transaction :=
          match r.time_since_prev_transaction with
          | some a => some a
          | none => medianOf (l.filterMap (·.time_since_prev_transaction)) }) := rfl

lemma fillLoc_eq_self {l : List Row}
    (h : (∀ r ∈ l, r.location.isSome) ∨ (∀ r ∈ l, r.location = none)) :
    fillLoc l = l := by
  simp only [fillLoc]
  by_cases hg : l.any (fun r => r.location.isNone) = true
  · rw [if_pos hg]
    rcases h with h | h
    · rcases List.any_eq_true.mp hg with ⟨r, hr, hn⟩
      rw [Option.isNone_iff_eq_none] at hn
      have hs := h r hr
      rw [hn] at hs
      cases hs
    · have he : l.filterMap (·.location) = [] :=
        List.filterMap_eq_nil.mpr (fun x hx => h x hx)
      rw [he]
      rfl
  · rw [if_neg hg]

lemma fillMerchant_eq_self {l : List Row}
    (h : (∀ r ∈ l, r.merchant_id.isSome) ∨ (∀ r ∈ l, r.merchant_id = none)) :
    fillMerchant l = l := by
  simp only [fillMerchant]
  by_cases hg : l.any (fun r => r.merchant_id.isNone) = true
  · rw [if_pos hg]
    rcases h with h | h
    · rcases List.any_eq_true.mp hg with ⟨r, hr, hn⟩
      rw [Option.isNone_iff_eq_none] at hn
      have hs := h r hr
      rw [hn] at hs
      cases hs
    · have he : l.filterMap (·.merchant_id) = [] :=
        List.filterMap_eq_nil.mpr (fun x hx => h x hx)
      rw [he]
      rfl
  · rw [if_neg hg]

lemma clipQ_bounds (v : ℚ) : 0 ≤ clipQ v ∧ clipQ v ≤ 100 := by
  unfold clipQ
  constructor
  · exact le_max_left 0 _
  · exact max_le (by norm_num) (min_le_left 100 v)

lemma clipQ_eq_self {v : ℚ} (h0 : 0 ≤ v) (h1 : v ≤ 100) : clipQ v = v := by
  unfold clipQ
  rw [min_eq_right h1, max_eq_right h0]

lemma clipScore_eq_self {l : List Row}
    (h : ∀ r ∈ l, ∀ v : ℚ, r.fraud_risk_score = some v → 0 ≤ v ∧ v ≤ 100) :
    clipScore l = l := by
  simp only [clipScore]
  refine map_eq_self_of ?_
  intro r hr
  refine rowUpd_score ?_
  rcases hv : r.fraud_risk_score with _ | v
  · rfl
  · rcases h r hr v hv with ⟨h0, h1⟩
    rw [Option.map_some', clipQ_eq_self h0 h1]

lemma filterNonneg_eq_self {l : List Row}
    (h : ∀ r ∈ l, ∃ a : ℚ, r.amount = some a ∧ 0 ≤ a) :
    filterNonneg l = l := by
  unfold filterNonneg
  refine List.filter_eq_self.mpr ?_
  intro r hr
  rcases h r hr with ⟨a, ha, h0⟩
  rw [ha]
  simpa using h0

lemma filterNonneg_spec {l : List Row} :
    ∀ r ∈ filterNonneg l, ∃ a : ℚ, r.amount = some a ∧ 0 ≤ a := by
  intro r hr
  have hp := List.of_mem_filter hr
  rcases ha : r.amount with _ | a
  · rw [ha] at hp; cases hp
  · rw [ha] at hp
    exact ⟨a, rfl, by simpa using hp⟩

lemma filterNonneg_sublist (l : List Row) : (filterNonneg l).Sublist l :=
  List.filter_sublist l

lemma fillScore_isSome (l : List Row) :
    ∀ r ∈ fillScore l, r.fraud_risk_score.isSome = true := by
  simp only [fillScore]
  intro r hr
  rcases List.mem_map.mp hr with ⟨x, _, rfl⟩
  rfl

lemma clipScore_spec {l : List Row} (h : ∀ r ∈ l, r.fraud_risk_score.isSome = true) :
    ∀ r ∈ clipScore l, ∃ v : ℚ, r.fraud_risk_score = some v ∧ 0 ≤ v ∧ v ≤ 100 := by
  simp only [clipScore]
  intro r hr
  rcases List.mem_map.mp hr with ⟨x, hx, rfl⟩
  rcases Option.isSome_iff_exists.mp (h x hx) with ⟨v, hv⟩
  refine ⟨clipQ v, ?_, (clipQ_bounds v).1, (clipQ_bounds v).2⟩
  show x.fraud_risk_score.map clipQ = some (clipQ v)
  rw [hv, Option.map_some']

lemma fillFee_allOr (l : List Row) :
    (∀ r ∈ fillFee l, r.fee.isSome = true) ∨ (∀ r ∈ fillFee l, r.fee = none) := by
  simp only [fillFee]
  cases hm : medianOf (l.filterMap (·.fee)) with
  | none =>
    right
    intro r hr
    rcases List.mem_map.mp hr with ⟨x, hx, rfl⟩
    have hxf : x.fee = none := (List.filterMap_eq_nil.mp (medianOf_eq_none hm)) x hx
    show (match x.fee with
      | some a => some a
      | none => none : Option ℚ) = none
    rw [hxf]
  | some m =>
    left
    intro r hr
    rcases List.mem_map.mp hr with ⟨x, hx, rfl⟩
    show (match x.fee with
      | some a => some a
      | none => some m : Option ℚ).isSome = true
    rcases x.fee with _ | a <;> rfl

lemma fillLoc_allOr (l : List Row) :
    (∀ r ∈ fillLoc l, r.location.isSome = true) ∨
      (∀ r ∈ fillLoc l, r.location = none) := by
  simp only [fillLoc]
  by_cases hg : l.any (fun r => r.location.isNone) = true
  · rw [if_pos hg]
    cases hm : modeOf (l.filterMap (·.location)) with
    | none =>
      right
      intro r hr
      exact (List.filterMap_eq_nil.mp (modeOf_eq_none hm)) r hr
    | some m =>
      left
      intro r hr
      rcases List.mem_map.mp hr with ⟨x, _, rfl⟩
      rfl
  · rw [if_neg hg]
    left
    intro r hr
    by_contra hn
    rw [Bool.not_eq_true, Option.not_isSome, Option.isNone_iff_eq_none] at hn
    exact hg (List.any_eq_true.mpr ⟨r, hr, by rw [hn]; rfl⟩)

lemma fillMerchant_allOr (l : List Row) :
    (∀ r ∈ fillMerchant l, r.merchant_id.isSome = true) ∨
      (∀ r ∈ fillMerchant l, r.merchant_id = none) := by
  simp only [fillMerchant]
  by_cases hg : l.any (fun r => r.merchant_id.isNone) = true
  · rw [if_pos hg]
    cases hm : modeOf (l.filterMap (·.merchant_id)) with
    | none =>
      right
      intro r hr
      exact (List.filterMap_eq_nil.mp (modeOf_eq_none hm)) r hr
    | some m =>
      left
      intro r hr
      rcases List.mem_map.mp hr with ⟨x, _, rfl⟩
      rfl
  · rw [if_neg hg]
    left
    intro r hr
    by_contra hn
    rw [Bool.not_eq_true, Option.not_isSome, Option.isNone_iff_eq_none] at hn
    exact hg (List.any_eq_true.mpr ⟨r, hr, by rw [hn]; rfl⟩)

/-! ### Covers lemmas for the cleaning steps -/

lemma fillAmount_covers (l : List Row) : Covers l (fillAmount l) := by
  simp only [fillAmount]
  refine covers_of_map ?_ l
  intro r
  refine ⟨rfl, rfl, rfl, ?_⟩
  intro a ha
  show (match r.amount with
    | some a => some a
    | none => medianOf (l.filterMap (·.amount)) : Option ℚ) = some a
  rw [ha]

lemma fillFee_covers (l : List Row) : Covers l (fillFee l) := by
  simp only [fillFee]
  refine covers_of_map ?_ l
  exact fun r => ⟨rfl, rfl, rfl, fun a ha => ha⟩

lemma fillScore_covers (l : List Row) : Covers l (fillScore l) := by
  simp only [fillScore]
  refine covers_of_map ?_ l
  exact fun r => ⟨rfl, rfl, rfl, fun a ha => ha⟩

lemma fillTime_covers (l : List Row) : Covers l (fillTime l) := by
  simp only [fillTime]
  refine covers_of_map ?_ l
  exact fun r => ⟨rfl, rfl, rfl, fun a ha => ha⟩

lemma fillLoc_covers (l : List Row) : Covers l (fillLoc l) := by
  simp only [fillLoc]
  by_cases hg : l.any (fun r => r.location.isNone) = true
  · rw [if_pos hg]
    cases hm : modeOf (l.filterMap (·.location)) with
    | none => exact covers_refl l
    | some m =>
      refine covers_of_map ?_ l
      exact fun r => ⟨rfl, rfl, rfl, fun a ha => ha⟩
  · rw [if_neg hg]; exact covers_refl l

lemma fillMerchant_covers (l : List Row) : Covers l (fillMerchant l) := by
  simp only [fillMerchant]
  by_cases hg : l.any (fun r => r.merchant_id.isNone) = true
  · rw [if_pos hg]
    cases hm : modeOf (l.filterMap (·.merchant_id)) with
    | none => exact covers_refl l
    | some m =>
      refine covers_of_map ?_ l
      exact fun r => ⟨rfl, rfl, rfl, fun a ha => ha⟩
  · rw [if_neg hg]; exact covers_refl l

lemma clipScore_covers (l : List Row) : Covers l (clipScore l) := by
  simp only [clipScore]
  refine covers_of_map ?_ l
  exact fun r => ⟨rfl, rfl, rfl, fun a ha => ha⟩

/-! ### Backfill lemmas -/

lemma setDefault_setVel (c : String) (r : Row) (p : Option ℤ) :
    setDefault c (setVel r p) = setVel (setDefault c r) p := by
  unfold setDefault
  split <;> rfl

lemma setDefault_id (c : String) (r : Row) :
    (setDefault c r).transaction_id = r.transaction_id := by
  unfold setDefault
  split <;> rfl

lemma setDefault_sender (c : String) (r : Row) :
    (setDefault c r).sender_phone = r.sender_phone := by
  unfold setDefault
  split <;> rfl

lemma setDefault_date (c : String) (r : Row) :
    (setDefault c r).transaction_date = r.transaction_date := by
  unfold setDefault
  split <;> rfl

lemma setDefault_amount (c : String) (r : Row) :
    (setDefault c r).amount = r.amount := by
  unfold setDefault
  split <;> rfl

lemma setDefault_location (c : String) (r : Row) :
    (setDefault c r).location = r.location := by
  unfold setDefault
  split <;> rfl

lemma setDefault_time (c : String) (r : Row) :
    (setDefault c r).time_since_prev_transaction = r.time_since_prev_transaction := by
  unfold setDefault
  split <;> rfl

lemma setDefault_score_of_ne {c : String} (hc : c ≠ "fraud_risk_score") (r : Row) :
    (setDefault c r).fraud_risk_score = r.fraud_risk_score := by
  unfold setDefault
  split <;> first | rfl | exact absurd rfl hc

lemma setDefault_derive {c : String} (hc : c ≠ "fraud_risk_score") (r : Row) :
    setDefault c (deriveRow r) = deriveRow (setDefault c r) := by
  unfold setDefault
  split <;> first | rfl | exact absurd rfl hc

lemma foldl_cols_map (cols : List String) (p : List String) : ∀ (l : List Row),
    cols.foldl (fun acc c => if c ∈ p then acc else acc.map (setDefault c)) l
      = l.map (fun r => cols.foldl (fun r c => if c ∈ p then r else setDefault c r) r) := by
  induction cols with
  | nil => intro l; simp
  | cons c cs ih =>
    intro l
    simp only [List.foldl_cons]
    by_cases hc : c ∈ p
    · simp only [if_pos hc]
      exact ih l
    · simp only [if_neg hc]
      rw [ih (l.map (setDefault c)), List.map_map]
      rfl

lemma backfillRows_eq_map (p : List String) (l : List Row) :
    backfillRows p l = l.map (applyDefs p) := by
  unfold backfillRows applyDefs
  exact foldl_cols_map expected_columns p l

lemma foldl_def_proj {α : Type} {p : List String} (proj : Row → α)
    (h : ∀ c r, c ∉ p → proj (setDefault c r) = proj r) :
    ∀ (cols : List String) (r : Row),
      proj (cols.foldl (fun r c => if c ∈ p then r else setDefault c r) r) = proj r := by
  intro cols
  induction cols with
  | nil => intro r; rfl
  | cons c cs ih =>
    intro r
    rw [List.foldl_cons]
    by_cases hc : c ∈ p
    · rw [if_pos hc]; exact ih r
    · rw [if_neg hc, ih, h c r hc]

lemma applyDefs_id (p : List String) (r : Row) :
    (applyDefs p r).transaction_id = r.transaction_id :=
  foldl_def_proj _ (fun c r _ => setDefault_id c r) expected_columns r

lemma applyDefs_sender (p : List String) (r : Row) :
    (applyDefs p r).sender_phone = r.sender_phone :=
  foldl_def_proj _ (fun c r _ => setDefault_sender c r) expected_columns r

lemma applyDefs_date (p : List String) (r : Row) :
    (applyDefs p r).transaction_date = r.transaction_date :=
  foldl_def_proj _ (fun c r _ => setDefault_date c r) expected_columns r

lemma applyDefs_amount (p : List String) (r : Row) :
    (applyDefs p r).amount = r.amount :=
  foldl_def_proj _ (fun c r _ => setDefault_amount c r) expected_columns r

lemma applyDefs_location (p : List String) (r : Row) :
    (applyDefs p r).location = r.location :=
  foldl_def_proj _ (fun c r _ => setDefault_location c r) expected_columns r

lemma applyDefs_time (p : List String) (r : Row) :
    (applyDefs p r).time_since_prev_transaction = r.time_since_prev_transaction :=
  foldl_def_proj _ (fun c r _ => setDefault_time c r) expected_columns r

lemma applyDefs_score {p : List String} (hp : "fraud_risk_score" ∈ p) (r : Row) :
    (applyDefs p r).fraud_risk_score = r.fraud_risk_score :=
  foldl_def_proj _
    (fun c r hc => setDefault_score_of_ne (fun e => hc (by rw [e]; exact hp)) r)
    expected_columns r

lemma applyDefs_keyOf (p : List String) (r : Row) : keyOf (applyDefs p r) = keyOf r := by
  unfold keyOf
  rw [applyDefs_sender, applyDefs_date]

lemma applyDefs_setVel (p : List String) (r : Row) (q : Option ℤ) :
    applyDefs p (setVel r q) = setVel (applyDefs p r) q := by
  unfold applyDefs
  generalize expected_columns = cols
  induction cols generalizing r with
  | nil => rfl
  | cons c cs ih =>
    rw [List.foldl_cons, List.foldl_cons]
    by_cases hc : c ∈ p
    · rw [if_pos hc, if_pos hc, ih]
    · rw [if_neg hc, if_neg hc, setDefault_setVel, ih]

lemma applyDefs_derive {p : List String} (hp : "fraud_risk_score" ∈ p) (r : Row) :
    applyDefs p (deriveRow r) = deriveRow (applyDefs p r) := by
  unfold applyDefs
  generalize expected_columns = cols
  induction cols generalizing r with
  | nil => rfl
  | cons c cs ih =>
    rw [List.foldl_cons, List.foldl_cons]
    by_cases hc : c ∈ p
    · rw [if_pos hc, if_pos hc, ih]
    · rw [if_neg hc, if_neg hc, setDefault_derive (fun e => hc (by rw [e]; exact hp)), ih]

lemma applyDefs_covers (p : List String) (l : List Row) :
    Covers l (l.map (applyDefs p)) := by
  refine covers_of_map ?_ l
  intro r
  refine ⟨applyDefs_id p r, applyDefs_sender p r, applyDefs_date p r, ?_⟩
  intro a ha
  rw [applyDefs_amount, ha]

/-! ### cleanFills transport lemmas -/

lemma ite_map_proj {α : Type} {proj : Row → α} (c : Prop) [Decidable c]
    (f : List Row → List Row) (l : List Row)
    (hf : (f l).map proj = l.map proj) :
    (if c then f l else l).map proj = l.map proj := by
  split
  · exact hf
  · rfl

lemma ite_covers (c : Prop) [Decidable c] (f : List Row → List Row)
    (l : List Row) (hf : Covers l (f l)) :
    Covers l (if c then f l else l) := by
  split
  · exact hf
  · exact covers_refl l

lemma cleanFills_proj {α : Type} {proj : Row → α}
    (hA : ∀ (r : Row) (m : Option ℚ), proj { r with amount := m } = proj r)
    (hF : ∀ (r : Row) (m : Option ℚ), proj { r with fee := m } = proj r)
    (hS : ∀ (r : Row) (m : Option ℚ), proj { r with fraud_risk_score := m } = proj r)
    (hT : ∀ (r : Row) (m : Option ℚ),
      proj { r with time_since_prev_transaction := m } = proj r)
    (hL : ∀ (r : Row) (m : Option String), proj { r with location := m } = proj r)
    (hM : ∀ (r : Row) (m : Option String), proj { r with merchant_id := m } = proj r)
    (p : List String) (l : List Row) :
    (cleanFills p l).map proj = l.map proj := by
  simp only [cleanFills]
  exact (ite_map_proj _ _ _ (fillMerchant_proj hM _)).trans
    ((ite_map_proj _ _ _ (fillLoc_proj hL _)).trans
      ((ite_map_proj _ _ _ (fillTime_proj hT _)).trans
        ((ite_map_proj _ _ _ (fillScore_proj hS _)).trans
          ((ite_map_proj _ _ _ (fillFee_proj hF _)).trans
            (ite_map_proj _ _ _ (fillAmount_proj hA _))))))

lemma cleanFills_covers (p : List String) (l : List Row) :
    Covers l (cleanFills p l) := by
  simp only [cleanFills]
  refine covers_comp (covers_comp (covers_comp (covers_comp (covers_comp
    (ite_covers _ _ _ (fillAmount_covers _))
    (ite_covers _ _ _ (fillFee_covers _)))
    (ite_covers _ _ _ (fillScore_covers _)))
    (ite_covers _ _ _ (fillTime_covers _)))
    (ite_covers _ _ _ (fillLoc_covers _)))
    (ite_covers _ _ _ (fillMerchant_covers _))

lemma cleanFills_score_isSome {p : List String} (hp : "fraud_risk_score" ∈ p)
    (l : List Row) :
    ∀ r ∈ cleanFills p l, r.fraud_risk_score.isSome = true := by
  simp only [cleanFills, if_pos hp]
  have htail : ∀ (l4 : List Row),
      ((if "merchant_id" ∈ p then
          fillMerchant (if "location" ∈ p then
            fillLoc (if "time_since_prev_transaction" ∈ p then fillTime l4 else l4)
          else (if "time_since_prev_transaction" ∈ p then fillTime l4 else l4))
        else (if "location" ∈ p then
            fillLoc (if "time_since_prev_transaction" ∈ p then fillTime l4 else l4)
          else (if "time_since_prev_transaction" ∈ p then fillTime l4 else l4))).map
        (·.fraud_risk_score)) = l4.map (·.fraud_risk_score) := by
    intro l4
    exact (ite_map_proj _ _ _
        (@fillMerchant_proj _ (fun r => r.fraud_risk_score) (fun _ _ => rfl) _)).trans
      ((ite_map_proj _ _ _
        (@fillLoc_proj _ (fun r => r.fraud_risk_score) (fun _ _ => rfl) _)).trans
        (ite_map_proj _ _ _
          (@fillTime_proj _ (fun r => r.fraud_risk_score) (fun _ _ => rfl) _)))
  intro r hr
  exact @forall_mem_of_map_proj _ (fun v => v.isSome = true)
    (fun r => r.fraud_risk_score) _ _ (htail _) (fillScore_isSome _) r hr

lemma cleanFills_fee_allOr {p : List String} (hp : "fee" ∈ p) (l : List Row) :
    (∀ r ∈ cleanFills p l, r.fee.isSome = true) ∨
      (∀ r ∈ cleanFills p l, r.fee = none) := by
  simp only [cleanFills, if_pos hp]
  have htail : ∀ (l3 : List Row),
      ((if "merchant_id" ∈ p then
          fillMerchant (if "location" ∈ p then
            fillLoc (if "time_since_prev_transaction" ∈ p then
              fillTime (if "fraud_risk_score" ∈ p then fillScore l3 else l3)
            else (if "fraud_risk_score" ∈ p then fillScore l3 else l3))
          else (if "time_since_prev_transaction" ∈ p then
              fillTime (if "fraud_risk_score" ∈ p then fillScore l3 else l3)
            else (if "fraud_risk_score" ∈ p then fillScore l3 else l3)))
        else (if "location" ∈ p then
            fillLoc (if "time_since_prev_transaction" ∈ p then
              fillTime (if "fraud_risk_score" ∈ p then fillScore l3 else l3)
            else (if "fraud_risk_score" ∈ p then fillScore l3 else l3))
          else (if "time_since_prev_transaction" ∈ p then
              fillTime (if "fraud_risk_score" ∈ p then fillScore l3 else l3)
            else (if "fraud_risk_score" ∈ p then fillScore l3 else l3)))).map
        (·.fee)) = l3.map (·.fee) := by
    intro l3
    exact (ite_map_proj _ _ _
        (@fillMerchant_proj _ (fun r => r.fee) (fun _ _ => rfl) _)).trans
      ((ite_map_proj _ _ _
        (@fillLoc_proj _ (fun r => r.fee) (fun _ _ => rfl) _)).trans
        ((ite_map_proj _ _ _
          (@fillTime_proj _ (fun r => r.fee) (fun _ _ => rfl) _)).trans
          (ite_map_proj _ _ _
            (@fillScore_proj _ (fun r => r.fee) (fun _ _ => rfl) _))))
  rcases fillFee_allOr (if "amount" ∈ p then fillAmount l else l) with hall | hall
  · left
    intro r hr
    exact @forall_mem_of_map_proj _ (fun v => v.isSome = true)
      (fun r => r.fee) _ _ (htail _) hall r hr
  · right
    intro r hr
    exact @forall_mem_of_map_proj _ (fun v => v = none)
      (fun r => r.fee) _ _ (htail _) hall r hr

lemma cleanFills_loc_allOr {p : List String} (hp : "location" ∈ p) (l : List Row) :
    (∀ r ∈ cleanFills p l, r.location.isSome = true) ∨
      (∀ r ∈ cleanFills p l, r.location = none) := by
  simp only [cleanFills, if_pos hp]
  have htail : ∀ (l6 : List Row),
      ((if "merchant_id" ∈ p then fillMerchant l6 else l6).map (·.location))
        = l6.map (·.location) := by
    intro l6
    exact ite_map_proj _ _ _
      (@fillMerchant_proj _ (fun r => r.location) (fun _ _ => rfl) _)
  rcases fillLoc_allOr (if "time_since_prev_transaction" ∈ p then
      fillTime (if "fraud_risk_score" ∈ p then
        fillScore (if "fee" ∈ p then
          fillFee (if "amount" ∈ p then fillAmount l else l)
        else (if "amount" ∈ p then fillAmount l else l))
      else (if "fee" ∈ p then
          fillFee (if "amount" ∈ p then fillAmount l else l)
        else (if "amount" ∈ p then fillAmount l else l)))
    else (if "fraud_risk_score" ∈ p then
        fillScore (if "fee" ∈ p then
          fillFee (if "amount" ∈ p then fillAmount l else l)
        else (if "amount" ∈ p then fillAmount l else l))
      else (if "fee" ∈ p then
          fillFee (if "amount" ∈ p then fillAmount l else l)
        else (if "amount" ∈ p then fillAmount l else l)))) with hall | hall
  · left
    intro r hr
    exact @forall_mem_of_map_proj _ (fun v => v.isSome = true)
      (fun r => r.location) _ _ (htail _) hall r hr
  · right
    intro r hr
    exact @forall_mem_of_map_proj _ (fun v => v = none)
      (fun r => r.location) _ _ (htail _) hall r hr

lemma cleanFills_merchant_allOr {p : List String} (hp : "merchant_id" ∈ p)
    (l : List Row) :
    (∀ r ∈ cleanFills p l, r.merchant_id.isSome = true) ∨
      (∀ r ∈ cleanFills p l, r.merchant_id = none) := by
  simp only [cleanFills, if_pos hp]
  exact fillMerchant_allOr _

/-! ### Run-level specification lemmas -/

lemma validate_ok_spec {b : Batch} {s : Summary} (h : validate_data b = .ok s) :
    "transaction_id" ∈ b.present ∧ "amount" ∈ b.present ∧ s = summaryOf b := by
  have h1 : "transaction_id" ∈ b.present := by
    by_contra h1
    rw [validate_data, if_neg h1] at h
    exact Except.noConfusion h
  have h2 : "amount" ∈ b.present := by
    by_contra h2
    rw [validate_data, if_pos h1, if_neg h2] at h
    exact Except.noConfusion h
  rw [validate_data, if_pos h1, if_pos h2] at h
  exact ⟨h1, h2, (Except.ok.inj h).symm⟩

lemma clean_spec {b c : Batch} (h : clean_data b = .ok c) :
    "transaction_id" ∈ b.present ∧ "amount" ∈ b.present ∧
    "transaction_date" ∈ b.present ∧ "fraud_risk_score" ∈ b.present ∧
    c = ⟨b.present,
         clipScore (filterNonneg (cleanFills b.present (dropDupIds b.rows)))⟩ := by
  have h1 : "transaction_id" ∈ b.present := by
    by_contra h1
    rw [clean_data, if_neg h1] at h
    exact Except.noConfusion h
  have h2 : "amount" ∈ b.present := by
    by_contra h2
    rw [clean_data, if_pos h1] at h
    simp only [if_neg h2] at h
    exact Except.noConfusion h
  have h3 : "transaction_date" ∈ b.present := by
    by_contra h3
    rw [clean_data, if_pos h1] at h
    simp only [if_pos h2, if_neg h3] at h
    exact Except.noConfusion h
  have h4 : "fraud_risk_score" ∈ b.present := by
    by_contra h4
    rw [clean_data, if_pos h1] at h
    simp only [if_pos h2, if_pos h3, if_neg h4] at h
    exact Except.noConfusion h
  rw [clean_data, if_pos h1] at h
  simp only [if_pos h2, if_pos h3, if_pos h4] at h
  exact ⟨h1, h2, h3, h4, (Except.ok.inj h).symm⟩

lemma enrich_spec {b e : Batch} (h : enrich_data b = .ok e) :
    "transaction_date" ∈ b.present ∧ "amount" ∈ b.present ∧
    "fraud_risk_score" ∈ b.present ∧ "location" ∈ b.present ∧
    "sender_phone" ∈ b.present ∧
    e = ⟨addDerivedCols b.present,
         velA (fun _ => none) (sortRows (b.rows.map deriveRow))⟩ := by
  have h1 : "transaction_date" ∈ b.present := by
    by_contra h1
    rw [enrich_data, if_neg h1] at h
    exact Except.noConfusion h
  have h2 : "amount" ∈ b.present := by
    by_contra h2
    rw [enrich_data, if_pos h1, if_neg h2] at h
    exact Except.noConfusion h
  have h3 : "fraud_risk_score" ∈ b.present := by
    by_contra h3
    rw [enrich_data, if_pos h1, if_pos h2, if_neg h3] at h
    exact Except.noConfusion h
  have h4 : "location" ∈ b.present := by
    by_contra h4
    rw [enrich_data, if_pos h1, if_pos h2, if_pos h3, if_neg h4] at h
    exact Except.noConfusion h
  have h5 : "sender_phone" ∈ b.present := by
    by_contra h5
    rw [enrich_data, if_pos h1, if_pos h2, if_pos h3, if_pos h4, if_neg h5] at h
    exact Except.noConfusion h
  rw [enrich_data, if_pos h1, if_pos h2, if_pos h3, if_pos h4, if_pos h5] at h
  exact ⟨h1, h2, h3, h4, h5, (Except.ok.inj h).symm⟩

lemma transform_spec {b o : Batch} (h : transform_data b = .ok o) :
    ∃ cr : List Row,
      cr = clipScore (filterNonneg (cleanFills b.present (dropDupIds b.rows))) ∧
      clean_data b = .ok ⟨b.present, cr⟩ ∧
      validate_data b = .ok (summaryOf b) ∧
      "transaction_id" ∈ b.present ∧ "amount" ∈ b.present ∧
      "transaction_date" ∈ b.present ∧ "fraud_risk_score" ∈ b.present ∧
      "location" ∈ b.present ∧ "sender_phone" ∈ b.present ∧
      o.present = expected_columns ∧
      o.rows = (velA (fun _ => none) (sortRows (cr.map deriveRow))).map
                 (applyDefs (addDerivedCols b.present)) := by
  cases hv : validate_data b with
  | error e =>
    simp only [transform_data, hv] at h
    exact Except.noConfusion h
  | ok s =>
    simp only [transform_data, hv] at h
    cases hc : clean_data b with
    | error e =>
      simp only [hc] at h
      exact Except.noConfusion h
    | ok c =>
      simp only [hc] at h
      cases he : enrich_data c with
      | error e =>
        simp only [he] at h
        exact Except.noConfusion h
      | ok e =>
        simp only [he] at h
        rcases clean_spec hc with ⟨hm1, hm2, hm3, hm4, hceq⟩
        rcases enrich_spec he with ⟨he1, he2, he3, he4, he5, heeq⟩
        have hvs := validate_ok_spec hv
        rcases hvs with ⟨_, _, hseq⟩
        have hcp : c.present = b.present := by rw [hceq]
        have hcr : c.rows =
            clipScore (filterNonneg (cleanFills b.present (dropDupIds b.rows))) := by
          rw [hceq]
        refine ⟨c.rows, hcr, ?_, ?_, hm1, hm2, hm3, hm4, ?_, ?_, ?_, ?_⟩
        · rw [hceq]
        · rw [hseq]
        · rw [← hcp]; exact he4
        · rw [← hcp]; exact he5
        · have ho : o = ⟨expected_columns, backfillRows e.present e.rows⟩ :=
            (Except.ok.inj h).symm
          rw [ho]
        · have ho : o = ⟨expected_columns, backfillRows e.present e.rows⟩ :=
            (Except.ok.inj h).symm
          have hep : e.present = addDerivedCols c.present := by rw [heeq]
          have her : e.rows =
              velA (fun _ => none) (sortRows (c.rows.map deriveRow)) := by
            rw [heeq]
          rw [ho, hep, her, backfillRows_eq_map, hcp]

/-! ### More auxiliary lemmas -/

lemma mem_foldl_addCol {c : String} : ∀ (cols p : List String),
    c ∈ p → c ∈ cols.foldl addCol p := by
  intro cols
  induction cols with
  | nil => intro p hp; exact hp
  | cons d ds ih =>
    intro p hp
    rw [List.foldl_cons]
    refine ih _ ?_
    unfold addCol
    split
    · exact hp
    · exact List.mem_append_left _ hp

lemma not_mem_foldl_addCol {c : String} : ∀ (cols p : List String),
    c ∉ p → c ∉ cols → c ∉ cols.foldl addCol p := by
  intro cols
  induction cols with
  | nil => intro p hp _; exact hp
  | cons d ds ih =>
    intro p hp hc
    rw [List.foldl_cons]
    refine ih _ ?_ (fun hm => hc (List.mem_cons_of_mem _ hm))
    unfold addCol
    split
    · exact hp
    · intro hm
      rcases List.mem_append.mp hm with hm | hm
      · exact hp hm
      · rcases List.mem_cons.mp hm with rfl | hm
        · exact hc (List.mem_cons_self _ _)
        · cases hm

lemma mem_addDerivedCols {c : String} {p : List String} (h : c ∈ p) :
    c ∈ addDerivedCols p :=
  mem_foldl_addCol derivedColumns p h

lemma setDefault_fee_of_ne {c : String} (hc : c ≠ "fee") (r : Row) :
    (setDefault c r).fee = r.fee := by
  unfold setDefault
  split <;> first | rfl | exact absurd rfl hc

lemma setDefault_merchant_of_ne {c : String} (hc : c ≠ "merchant_id") (r : Row) :
    (setDefault c r).merchant_id = r.merchant_id := by
  unfold setDefault
  split <;> first | rfl | exact absurd rfl hc

lemma applyDefs_fee {p : List String} (hp : "fee" ∈ p) (r : Row) :
    (applyDefs p r).fee = r.fee :=
  foldl_def_proj _
    (fun c r hc => setDefault_fee_of_ne (fun e => hc (by rw [e]; exact hp)) r)
    expected_columns r

lemma applyDefs_merchant {p : List String} (hp : "merchant_id" ∈ p) (r : Row) :
    (applyDefs p r).merchant_id = r.merchant_id :=
  foldl_def_proj _
    (fun c r hc => setDefault_merchant_of_ne (fun e => hc (by rw [e]; exact hp)) r)
    expected_columns r

lemma foldl_def_proj_cond {α : Type} {p : List String} (proj : Row → α)
    (bad : String)
    (h : ∀ c r, c ≠ bad → proj (setDefault c r) = proj r) :
    ∀ (cols : List String), bad ∉ cols → ∀ r : Row,
      proj (cols.foldl (fun r c => if c ∈ p then r else setDefault c r) r) = proj r := by
  intro cols
  induction cols with
  | nil => intro _ r; rfl
  | cons c cs ih =>
    intro hb r
    rw [List.foldl_cons]
    have hbc : bad ∉ cs := fun hm => hb (List.mem_cons_of_mem _ hm)
    have hcb : c ≠ bad := fun e => hb (e ▸ List.mem_cons_self _ _)
    by_cases hc : c ∈ p
    · rw [if_pos hc]; exact ih hbc r
    · rw [if_neg hc, ih hbc, h c r hcb]

lemma foldl_def_fee_mem {p : List String} (hp : "fee" ∉ p) :
    ∀ (cols : List String) (r : Row), "fee" ∈ cols →
      ((cols.foldl (fun r c => if c ∈ p then r else setDefault c r) r)).fee = some 0 := by
  intro cols
  induction cols with
  | nil => intro r hm; cases hm
  | cons c cs ih =>
    intro r hm
    rw [List.foldl_cons]
    by_cases hc : c = "fee"
    · subst hc
      rw [if_neg hp]
      by_cases hcs : "fee" ∈ cs
      · exact ih _ hcs
      · rw [foldl_def_proj_cond (fun r => r.fee) "fee"
          (fun c r hcc => setDefault_fee_of_ne hcc r) cs hcs]
        rfl
    · have hcs : "fee" ∈ cs := by
        rcases List.mem_cons.mp hm with he | hm'
        · exact absurd he.symm hc
        · exact hm'
      by_cases hcp : c ∈ p
      · rw [if_pos hcp]; exact ih _ hcs
      · rw [if_neg hcp]; exact ih _ hcs

lemma foldl_def_merchant_mem {p : List String} (hp : "merchant_id" ∉ p) :
    ∀ (cols : List String) (r : Row), "merchant_id" ∈ cols →
      ((cols.foldl (fun r c => if c ∈ p then r else setDefault c r) r)).merchant_id
        = some "" := by
  intro cols
  induction cols with
  | nil => intro r hm; cases hm
  | cons c cs ih =>
    intro r hm
    rw [List.foldl_cons]
    by_cases hc : c = "merchant_id"
    · subst hc
      rw [if_neg hp]
      by_cases hcs : "merchant_id" ∈ cs
      · exact ih _ hcs
      · rw [foldl_def_proj_cond (fun r => r.merchant_id) "merchant_id"
          (fun c r hcc => setDefault_merchant_of_ne hcc r) cs hcs]
        rfl
    · have hcs : "merchant_id" ∈ cs := by
        rcases List.mem_cons.mp hm with he | hm'
        · exact absurd he.symm hc
        · exact hm'
      by_cases hcp : c ∈ p
      · rw [if_pos hcp]; exact ih _ hcs
      · rw [if_neg hcp]; exact ih _ hcs

lemma applyDefs_fee_default {p : List String} (hp : "fee" ∉ p) (r : Row) :
    (applyDefs p r).fee = some 0 :=
  foldl_def_fee_mem hp expected_columns r (by decide)

lemma applyDefs_merchant_default {p : List String} (hp : "merchant_id" ∉ p) (r : Row) :
    (applyDefs p r).merchant_id = some "" :=
  foldl_def_merchant_mem hp expected_columns r (by decide)

lemma forall_mem_of_perm {P : Row → Prop} {l l' : List Row}
    (hp : List.Perm l l') (h : ∀ r ∈ l, P r) : ∀ r ∈ l', P r :=
  fun r hr => h r (hp.mem_iff.mpr hr)

lemma pairwise_rle_of_map_keyOf {l l' : List Row}
    (he : l'.map keyOf = l.map keyOf) (h : l.Pairwise rle) : l'.Pairwise rle := by
  have h1 : (l.map keyOf).Pairwise kle := by
    rw [List.pairwise_map]
    exact h
  rw [← he, List.pairwise_map] at h1
  exact h1

lemma deriveRow_idem_list {l : List Row} :
    ∀ r ∈ l.map deriveRow, deriveRow r = r := by
  intro r hr
  rcases List.mem_map.mp hr with ⟨x, _, rfl⟩
  exact deriveRow_idem x

lemma transform_rows {b o : Batch} (h : transform_data b = .ok o) :
    o.rows = outRows b.present b.rows := by
  rcases transform_spec h with ⟨cr, hcr, _, _, _, _, _, _, _, _, _, hrows⟩
  rw [hrows, hcr]
  rfl

lemma outRows_eq_velA (p : List String) (l : List Row) :
    outRows p l = velA (fun _ => none)
      ((sortRows ((clipScore (filterNonneg (cleanFills p (dropDupIds l)))).map
        deriveRow)).map (applyDefs (addDerivedCols p))) := by
  unfold outRows
  exact (velA_map (applyDefs_sender _) (applyDefs_date _)
    (fun r q => applyDefs_setVel _ r q) _ _).symm

lemma outRows_ids_nodup (p : List String) (l : List Row) :
    ((outRows p l).map (·.transaction_id)).Nodup := by
  unfold outRows
  rw [map_proj_map (applyDefs_id _),
      velA_map_proj (·.transaction_id) (fun r q => rfl)]
  have hperm :
      ((sortRows ((clipScore (filterNonneg (cleanFills p (dropDupIds l)))).map
        deriveRow)).map (·.transaction_id)).Perm
      (((clipScore (filterNonneg (cleanFills p (dropDupIds l)))).map
        deriveRow).map (·.transaction_id)) :=
    (sortRows_perm _).map _
  rw [hperm.nodup_iff]
  rw [@map_proj_map _ deriveRow (fun r => r.transaction_id) (fun r => rfl) _]
  rw [@clipScore_proj _ (fun r => r.transaction_id) (fun _ _ => rfl) _]
  have hsub : ((filterNonneg (cleanFills p (dropDupIds l))).map
      (fun r => r.transaction_id)).Sublist
      ((cleanFills p (dropDupIds l)).map (fun r => r.transaction_id)) :=
    (filterNonneg_sublist _).map _
  refine hsub.nodup ?_
  rw [@cleanFills_proj _ (fun r => r.transaction_id) (fun _ _ => rfl) (fun _ _ => rfl)
    (fun _ _ => rfl) (fun _ _ => rfl) (fun _ _ => rfl) (fun _ _ => rfl) p _]
  exact dedupGo_nodup l []

lemma outRows_amount (p : List String) (l : List Row) :
    ∀ r ∈ outRows p l, ∃ a : ℚ, r.amount = some a ∧ 0 ≤ a := by
  have base : ∀ r ∈ clipScore (filterNonneg (cleanFills p (dropDupIds l))),
      ∃ a : ℚ, r.amount = some a ∧ 0 ≤ a := by
    intro r hr
    exact @forall_mem_of_map_proj _ (fun v => ∃ a : ℚ, v = some a ∧ 0 ≤ a)
      (fun r => r.amount) _ _
      (@clipScore_proj _ (fun r => r.amount) (fun _ _ => rfl) _)
      (filterNonneg_spec) r hr
  have s1 : ∀ r ∈ (clipScore (filterNonneg (cleanFills p (dropDupIds l)))).map
      deriveRow, ∃ a : ℚ, r.amount = some a ∧ 0 ≤ a := by
    intro r hr
    exact @forall_mem_of_map_proj _ (fun v => ∃ a : ℚ, v = some a ∧ 0 ≤ a)
      (fun r => r.amount) _ _
      (@map_proj_map _ deriveRow (fun r => r.amount) (fun r => rfl) _) base r hr
  have s2 := forall_mem_of_perm (sortRows_perm _).symm s1
  have s3 : ∀ r ∈ velA (fun _ => none)
      (sortRows ((clipScore (filterNonneg (cleanFills p (dropDupIds l)))).map
        deriveRow)), ∃ a : ℚ, r.amount = some a ∧ 0 ≤ a := by
    intro r hr
    exact @forall_mem_of_map_proj _ (fun v => ∃ a : ℚ, v = some a ∧ 0 ≤ a)
      (fun r => r.amount) _ _
      (velA_map_proj (fun r => r.amount) (fun r q => rfl) _ _) s2 r hr
  intro r hr
  exact @forall_mem_of_map_proj _ (fun v => ∃ a : ℚ, v = some a ∧ 0 ≤ a)
    (fun r => r.amount) _ _
    (map_proj_map (applyDefs_amount _) _) s3 r hr

lemma outRows_score {p : List String} (hfrs : "fraud_risk_score" ∈ p)
    (l : List Row) :
    ∀ r ∈ outRows p l, ∃ v : ℚ, r.fraud_risk_score = some v ∧ 0 ≤ v ∧ v ≤ 100 := by
  have base : ∀ r ∈ clipScore (filterNonneg (cleanFills p (dropDupIds l))),
      ∃ v : ℚ, r.fraud_risk_score = some v ∧ 0 ≤ v ∧ v ≤ 100 := by
    refine clipScore_spec ?_
    intro r hr
    exact cleanFills_score_isSome hfrs _ r (List.mem_of_mem_filter hr)
  have s1 : ∀ r ∈ (clipScore (filterNonneg (cleanFills p (dropDupIds l)))).map
      deriveRow, ∃ v : ℚ, r.fraud_risk_score = some v ∧ 0 ≤ v ∧ v ≤ 100 := by
    intro r hr
    exact @forall_mem_of_map_proj _ (fun w => ∃ v : ℚ, w = some v ∧ 0 ≤ v ∧ v ≤ 100)
      (fun r => r.fraud_risk_score) _ _
      (@map_proj_map _ deriveRow (fun r => r.fraud_risk_score) (fun r => rfl) _)
      base r hr
  have s2 := forall_mem_of_perm (sortRows_perm _).symm s1
  have s3 : ∀ r ∈ velA (fun _ => none)
      (sortRows ((clipScore (filterNonneg (cleanFills p (dropDupIds l)))).map
        deriveRow)), ∃ v : ℚ, r.fraud_risk_score = some v ∧ 0 ≤ v ∧ v ≤ 100 := by
    intro r hr
    exact @forall_mem_of_map_proj _ (fun w => ∃ v : ℚ, w = some v ∧ 0 ≤ v ∧ v ≤ 100)
      (fun r => r.fraud_risk_score) _ _
      (velA_map_proj (fun r => r.fraud_risk_score) (fun r q => rfl) _ _) s2 r hr
  intro r hr
  exact @forall_mem_of_map_proj _ (fun w => ∃ v : ℚ, w = some v ∧ 0 ≤ v ∧ v ≤ 100)
    (fun r => r.fraud_risk_score) _ _
    (map_proj_map (applyDefs_score (mem_addDerivedCols hfrs)) _) s3 r hr

lemma outRows_transport {α : Type} {p : List String} {l : List Row}
    (proj : Row → α) (P : α → Prop)
    (hD : ∀ r, proj (deriveRow r) = proj r)
    (hV : ∀ r q, proj (setVel r q) = proj r)
    (hA : ∀ r, proj (applyDefs (addDerivedCols p) r) = proj r)
    (base : ∀ r ∈ clipScore (filterNonneg (cleanFills p (dropDupIds l))),
      P (proj r)) :
    ∀ r ∈ outRows p l, P (proj r) := by
  have s1 : ∀ r ∈ (clipScore (filterNonneg (cleanFills p (dropDupIds l)))).map
      deriveRow, P (proj r) := fun r hr =>
    @forall_mem_of_map_proj _ P proj _ _
      (@map_proj_map _ deriveRow proj hD _) base r hr
  have s2 := forall_mem_of_perm (sortRows_perm _).symm s1
  have s3 : ∀ r ∈ velA (fun _ => none)
      (sortRows ((clipScore (filterNonneg (cleanFills p (dropDupIds l)))).map
        deriveRow)), P (proj r) := fun r hr =>
    @forall_mem_of_map_proj _ P proj _ _
      (velA_map_proj proj hV _ _) s2 r hr
  intro r hr
  exact @forall_mem_of_map_proj _ P proj _ _
    (@map_proj_map _ (applyDefs (addDerivedCols p)) proj hA _) s3 r hr

lemma clip_filter_transport {α : Type} {p : List String} {l : List Row}
    (proj : Row → α) (P : α → Prop)
    (hC : ∀ (r : Row) (m : Option ℚ), proj { r with fraud_risk_score := m } = proj r)
    (base : ∀ r ∈ cleanFills p (dropDupIds l), P (proj r)) :
    ∀ r ∈ clipScore (filterNonneg (cleanFills p (dropDupIds l))), P (proj r) := by
  intro r hr
  refine @forall_mem_of_map_proj _ P proj _ _
    (@clipScore_proj _ proj hC _) ?_ r hr
  intro x hx
  exact base x (List.mem_of_mem_filter hx)

lemma outRows_fee_allOr (p : List String) (l : List Row) :
    (∀ r ∈ outRows p l, r.fee.isSome = true) ∨
      (∀ r ∈ outRows p l, r.fee = none) := by
  by_cases hf : "fee" ∈ p
  · rcases cleanFills_fee_allOr hf (dropDupIds l) with hall | hall
    · left
      exact outRows_transport (fun r => r.fee) (fun v => v.isSome = true)
        (fun r => rfl) (fun r q => rfl)
        (fun r => applyDefs_fee (mem_addDerivedCols hf) r)
        (clip_filter_transport (fun r => r.fee) (fun v => v.isSome = true)
          (fun _ _ => rfl) hall)
    · right
      exact outRows_transport (fun r => r.fee) (fun v => v = none)
        (fun r => rfl) (fun r q => rfl)
        (fun r => applyDefs_fee (mem_addDerivedCols hf) r)
        (clip_filter_transport (fun r => r.fee) (fun v => v = none)
          (fun _ _ => rfl) hall)
  · left
    intro r hr
    rcases List.mem_map.mp hr with ⟨x, _, rfl⟩
    have hq : ("fee" : String) ∉ addDerivedCols p :=
      not_mem_foldl_addCol derivedColumns p hf (by decide)
    rw [applyDefs_fee_default hq]
    rfl

lemma outRows_loc_allOr {p : List String} (hloc : "location" ∈ p) (l : List Row) :
    (∀ r ∈ outRows p l, r.location.isSome = true) ∨
      (∀ r ∈ outRows p l, r.location = none) := by
  rcases cleanFills_loc_allOr hloc (dropDupIds l) with hall | hall
  · left
    exact outRows_transport (fun r => r.location) (fun v => v.isSome = true)
      (fun r => rfl) (fun r q => rfl)
      (fun r => applyDefs_location _ r)
      (clip_filter_transport (fun r => r.location) (fun v => v.isSome = true)
        (fun _ _ => rfl) hall)
  · right
    exact outRows_transport (fun r => r.location) (fun v => v = none)
      (fun r => rfl) (fun r q => rfl)
      (fun r => applyDefs_location _ r)
      (clip_filter_transport (fun r => r.location) (fun v => v = none)
        (fun _ _ => rfl) hall)

lemma outRows_merchant_allOr (p : List String) (l : List Row) :
    (∀ r ∈ outRows p l, r.merchant_id.isSome = true) ∨
      (∀ r ∈ outRows p l, r.merchant_id = none) := by
  by_cases hm : "merchant_id" ∈ p
  · rcases cleanFills_merchant_allOr hm (dropDupIds l) with hall | hall
    · left
      exact outRows_transport (fun r => r.merchant_id) (fun v => v.isSome = true)
        (fun r => rfl) (fun r q => rfl)
        (fun r => applyDefs_merchant (mem_addDerivedCols hm) r)
        (clip_filter_transport (fun r => r.merchant_id) (fun v => v.isSome = true)
          (fun _ _ => rfl) hall)
    · right
      exact outRows_transport (fun r => r.merchant_id) (fun v => v = none)
        (fun r => rfl) (fun r q => rfl)
        (fun r => applyDefs_merchant (mem_addDerivedCols hm) r)
        (clip_filter_transport (fun r => r.merchant_id) (fun v => v = none)
          (fun _ _ => rfl) hall)
  · left
    intro r hr
    rcases List.mem_map.mp hr with ⟨x, _, rfl⟩
    have hq : ("merchant_id" : String) ∉ addDerivedCols p :=
      not_mem_foldl_addCol derivedColumns p hm (by decide)
    rw [applyDefs_merchant_default hq]
    rfl

lemma outRows_pairwise (p : List String) (l : List Row) :
    (outRows p l).Pairwise rle := by
  unfold outRows
  refine pairwise_rle_of_map_keyOf
    ((map_proj_map (applyDefs_keyOf _) _).trans
      (velA_map_proj keyOf (fun r q => setVel_keyOf r q) _ _)) ?_
  exact sortRows_pairwise _

lemma outRows_derive_fix {p : List String} (hfrs : "fraud_risk_score" ∈ p)
    (l : List Row) : ∀ r ∈ outRows p l, deriveRow r = r := by
  have base := @deriveRow_idem_list
    (clipScore (filterNonneg (cleanFills p (dropDupIds l))))
  have s2 := forall_mem_of_perm (sortRows_perm _).symm base
  have s3 : ∀ r ∈ velA (fun _ => none)
      (sortRows ((clipScore (filterNonneg (cleanFills p (dropDupIds l)))).map
        deriveRow)), deriveRow r = r := by
    intro r hr
    rcases mem_velA hr with ⟨x, hx, q, rfl⟩
    rw [deriveRow_setVel, s2 x hx]
  intro r hr
  rcases List.mem_map.mp hr with ⟨x, hx, rfl⟩
  rw [← applyDefs_derive (mem_addDerivedCols hfrs), s3 x hx]

lemma outRows_velA_fix (p : List String) (l : List Row) :
    velA (fun _ => none) (outRows p l) = outRows p l := by
  rw [outRows_eq_velA]
  exact velA_velA _ _

lemma velA_covers (m : String → Option ℤ) (x : List Row) :
    Covers x (velA m x) := by
  intro r hr
  rcases mem_velA hr with ⟨y, hy, q, rfl⟩
  exact ⟨y, hy, rfl, rfl, rfl, fun a ha => ha⟩

lemma outRows_covers (p : List String) (l : List Row) :
    Covers (dropDupIds l) (outRows p l) := by
  have c1 : Covers (dropDupIds l)
      (clipScore (filterNonneg (cleanFills p (dropDupIds l)))) :=
    covers_comp (covers_comp (cleanFills_covers p _)
      (covers_of_sublist (filterNonneg_sublist _))) (clipScore_covers _)
  have c2 : Covers (clipScore (filterNonneg (cleanFills p (dropDupIds l))))
      ((clipScore (filterNonneg (cleanFills p (dropDupIds l)))).map deriveRow) := by
    refine covers_of_map ?_ _
    exact fun r => ⟨rfl, rfl, rfl, fun a ha => ha⟩
  have c3 : Covers ((clipScore (filterNonneg (cleanFills p (dropDupIds l)))).map
      deriveRow)
      (sortRows ((clipScore (filterNonneg (cleanFills p (dropDupIds l)))).map
        deriveRow)) :=
    covers_of_perm (sortRows_perm _).symm
  have c4 := velA_covers (fun _ => none)
    (sortRows ((clipScore (filterNonneg (cleanFills p (dropDupIds l)))).map
      deriveRow))
  have c5 := applyDefs_covers (addDerivedCols p)
    (velA (fun _ => none)
      (sortRows ((clipScore (filterNonneg (cleanFills p (dropDupIds l)))).map
        deriveRow)))
  exact covers_comp (covers_comp (covers_comp (covers_comp c1 c2) c3) c4) c5

lemma setDefault_prev (c : String) (r : Row) :
    (setDefault c r).prev_transaction_time = r.prev_transaction_time := by
  unfold setDefault
  split <;> rfl

lemma setDefault_susp (c : String) (r : Row) :
    (setDefault c r).is_suspicious_velocity = r.is_suspicious_velocity := by
  unfold setDefault
  split <;> rfl

lemma applyDefs_prev (p : List String) (r : Row) :
    (applyDefs p r).prev_transaction_time = r.prev_transaction_time :=
  foldl_def_proj _ (fun c r _ => setDefault_prev c r) expected_columns r

lemma applyDefs_susp (p : List String) (r : Row) :
    (applyDefs p r).is_suspicious_velocity = r.is_suspicious_velocity :=
  foldl_def_proj _ (fun c r _ => setDefault_susp c r) expected_columns r

lemma velA_filter_map {α : Type} (pr : Row → Bool) (g : Row → α)
    (hp : ∀ r q, pr (setVel r q) = pr r) (hg : ∀ r q, g (setVel r q) = g r) :
    ∀ (m : String → Option ℤ) (l : List Row),
      ((velA m l).filter pr).map g = (l.filter pr).map g := by
  intro m l
  induction l generalizing m with
  | nil => rfl
  | cons r rs ih =>
    rw [velA, List.filter_cons, List.filter_cons, hp]
    cases hr : pr r with
    | true =>
      rw [if_pos rfl, if_pos rfl, List.map_cons, List.map_cons, hg, ih]
    | false =>
      rw [if_neg (by simp), if_neg (by simp)]
      exact ih _

lemma prevSeq_congr : ∀ {l1 l2 : List Row},
    l1.map (·.transaction_date) = l2.map (·.transaction_date) →
    ∀ a : Option ℤ, prevSeq a l1 = prevSeq a l2 := by
  intro l1
  induction l1 with
  | nil =>
    intro l2 h a
    cases l2 with
    | nil => rfl
    | cons y ys => cases h
  | cons x xs ih =>
    intro l2 h a
    cases l2 with
    | nil => cases h
    | cons y ys =>
      rw [List.map_cons, List.map_cons] at h
      have h1 := (List.cons.inj h).1
      have h2 := (List.cons.inj h).2
      rw [prevSeq, prevSeq, ih h2, h1]

lemma outRows_prev_filter (p : List String) (l : List Row) (s : String) :
    ((outRows p l).filter (fun r => decide (r.sender_phone = s))).map
        (·.prev_transaction_time)
      = prevSeq none ((outRows p l).filter (fun r => decide (r.sender_phone = s))) := by
  rw [outRows_eq_velA]
  rw [velA_prev_filter s]
  refine prevSeq_congr ?_ none
  exact (velA_filter_map (fun r => decide (r.sender_phone = s))
    (fun r => r.transaction_date)
    (fun r q => by simp only [setVel_sender]) (fun r q => rfl) _ _).symm

lemma outRows_time_pointwise (p : List String) (l : List Row) :
    ∀ r ∈ outRows p l,
      r.time_since_prev_transaction
          = r.prev_transaction_time.map (fun q => gapMin r.transaction_date q) ∧
        r.is_suspicious_velocity
          = (match r.time_since_prev_transaction with
             | some x => if x < 5 then 1 else 0
             | none => 0) := by
  intro r hr
  rcases List.mem_map.mp hr with ⟨x, hx, rfl⟩
  rcases velA_time_susp hx with ⟨h1, h2⟩
  constructor
  · rw [applyDefs_time, applyDefs_prev, applyDefs_date, h1]
  · rw [applyDefs_susp, applyDefs_time, h2]

/-! ### Idempotence machinery -/

lemma map_congr_mem {α β : Type} {f g : α → β} : ∀ {l : List α},
    (∀ a ∈ l, f a = g a) → l.map f = l.map g := by
  intro l
  induction l with
  | nil => intro _; rfl
  | cons x xs ih =>
    intro h
    rw [List.map_cons, List.map_cons, h x (List.mem_cons_self _ _),
      ih (fun a ha => h a (List.mem_cons_of_mem _ ha))]

lemma deriveRow_time_update (r : Row) (m : Option ℚ) :
    deriveRow { r with time_since_prev_transaction := m }
      = { deriveRow r with time_since_prev_transaction := m } := rfl

lemma setVel_time_update (r : Row) (m : Option ℚ) (q : Option ℤ) :
    setVel { r with time_since_prev_transaction := m } q = setVel r q := rfl

lemma backfill_eq_self {p : List String} {l : List Row}
    (h : ∀ c ∈ expected_columns, c ∈ p) : backfillRows p l = l := by
  unfold backfillRows
  have aux : ∀ (cols : List String), (∀ c ∈ cols, c ∈ p) → ∀ (l : List Row),
      cols.foldl (fun acc c => if c ∈ p then acc else acc.map (setDefault c)) l
        = l := by
    intro cols
    induction cols with
    | nil => intro _ l; rfl
    | cons c cs ih =>
      intro hc l
      rw [List.foldl_cons, if_pos (hc c (List.mem_cons_self _ _))]
      exact ih (fun d hd => hc d (List.mem_cons_of_mem _ hd)) l
  exact aux expected_columns h l

lemma transform_fix {P : List String} {L : List Row}
    (hP : P = expected_columns)
    (hnodup : ((L.map (·.transaction_id))).Nodup)
    (hamount : ∀ r ∈ L, ∃ a : ℚ, r.amount = some a ∧ 0 ≤ a)
    (hscore : ∀ r ∈ L, ∃ v : ℚ, r.fraud_risk_score = some v ∧ 0 ≤ v ∧ v ≤ 100)
    (hfee : (∀ r ∈ L, r.fee.isSome = true) ∨ (∀ r ∈ L, r.fee = none))
    (hloc : (∀ r ∈ L, r.location.isSome = true) ∨ (∀ r ∈ L, r.location = none))
    (hmerch : (∀ r ∈ L, r.merchant_id.isSome = true) ∨ (∀ r ∈ L, r.merchant_id = none))
    (hsorted : L.Pairwise rle)
    (hderive : ∀ r ∈ L, deriveRow r = r)
    (hvel : velA (fun _ => none) L = L) :
    transform_data ⟨P, L⟩ = .ok ⟨P, L⟩ := by
  subst hP
  have hdedup : dropDupIds L = L :=
    dedupGo_eq_self L [] hnodup (fun r _ hm => (List.not_mem_nil _) hm)
  have hfillA : fillAmount L = L := by
    refine fillAmount_eq_self ?_
    intro r hr
    rcases hamount r hr with ⟨a, ha, _⟩
    rw [ha]
    rfl
  have hfillF : fillFee L = L := fillFee_eq_self hfee
  have hfillS : fillScore L = L := by
    refine fillScore_eq_self ?_
    intro r hr
    rcases hscore r hr with ⟨v, hv, _⟩
    rw [hv]
    rfl
  have htimeproj : ∀ {α : Type} (proj : Row → α),
      (∀ (r : Row) (m : Option ℚ),
        proj { r with time_since_prev_transaction := m } = proj r) →
      (fillTime L).map proj = L.map proj := fun proj hp => fillTime_proj hp L
  have hfillL : fillLoc (fillTime L) = fillTime L := by
    refine fillLoc_eq_self ?_
    rcases hloc with h | h
    · left
      intro r hr
      exact @forall_mem_of_map_proj _ (fun v => v.isSome = true)
        (fun r => r.location) _ _
        (@fillTime_proj _ (fun r => r.location) (fun _ _ => rfl) L) h r hr
    · right
      intro r hr
      exact @forall_mem_of_map_proj _ (fun v => v = none)
        (fun r => r.location) _ _
        (@fillTime_proj _ (fun r => r.location) (fun _ _ => rfl) L) h r hr
  have hfillM : fillMerchant (fillTime L) = fillTime L := by
    refine fillMerchant_eq_self ?_
    rcases hmerch with h | h
    · left
      intro r hr
      exact @forall_mem_of_map_proj _ (fun v => v.isSome = true)
        (fun r => r.merchant_id) _ _
        (@fillTime_proj _ (fun r => r.merchant_id) (fun _ _ => rfl) L) h r hr
    · right
      intro r hr
      exact @forall_mem_of_map_proj _ (fun v => v = none)
        (fun r => r.merchant_id) _ _
        (@fillTime_proj _ (fun r => r.merchant_id) (fun _ _ => rfl) L) h r hr
  have hamount' : ∀ r ∈ fillTime L, ∃ a : ℚ, r.amount = some a ∧ 0 ≤ a := by
    intro r hr
    exact @forall_mem_of_map_proj _ (fun v => ∃ a : ℚ, v = some a ∧ 0 ≤ a)
      (fun r => r.amount) _ _
      (@fillTime_proj _ (fun r => r.amount) (fun _ _ => rfl) L) hamount r hr
  have hscore' : ∀ r ∈ fillTime L,
      ∃ v : ℚ, r.fraud_risk_score = some v ∧ 0 ≤ v ∧ v ≤ 100 := by
    intro r hr
    exact @forall_mem_of_map_proj _
      (fun w => ∃ v : ℚ, w = some v ∧ 0 ≤ v ∧ v ≤ 100)
      (fun r => r.fraud_risk_score) _ _
      (@fillTime_proj _ (fun r => r.fraud_risk_score) (fun _ _ => rfl) L)
      hscore r hr
  have hfilter : filterNonneg (fillTime L) = fillTime L :=
    filterNonneg_eq_self hamount'
  have hclip : clipScore (fillTime L) = fillTime L := by
    refine clipScore_eq_self ?_
    intro r hr v hv
    rcases hscore' r hr with ⟨w, hw, h0, h1⟩
    rw [hv] at hw
    rcases Option.some.inj hw with rfl
    exact ⟨h0, h1⟩
  have hfills : cleanFills expected_columns L = fillTime L := by
    simp only [cleanFills, if_pos (show "amount" ∈ expected_columns by decide),
      if_pos (show "fee" ∈ expected_columns by decide),
      if_pos (show "fraud_risk_score" ∈ expected_columns by decide),
      if_pos (show "time_since_prev_transaction" ∈ expected_columns by decide),
      if_pos (show "location" ∈ expected_columns by decide),
      if_pos (show "merchant_id" ∈ expected_columns by decide)]
    rw [hfillA, hfillF, hfillS, hfillL, hfillM]
  have hclean : clean_data ⟨expected_columns, L⟩ =
      .ok ⟨expected_columns, fillTime L⟩ := by
    rw [clean_data, if_pos (show "transaction_id" ∈ expected_columns by decide)]
    simp only [if_pos (show "amount" ∈ expected_columns by decide),
      if_pos (show "transaction_date" ∈ expected_columns by decide),
      if_pos (show "fraud_risk_score" ∈ expected_columns by decide)]
    show Except.ok (⟨expected_columns,
      clipScore (filterNonneg (cleanFills expected_columns (dropDupIds L)))⟩ : Batch) = _
    rw [hdedup, hfills, hfilter, hclip]
  have hmapderive : (fillTime L).map deriveRow = fillTime L := by
    rw [fillTime_map]
    rw [List.map_map]
    refine map_congr_mem ?_
    intro r hr
    show deriveRow { r with time_since_prev_transaction := _ } = _
    rw [deriveRow_time_update, hderive r hr]
  have hsorted' : (fillTime L).Pairwise rle := by
    refine pairwise_rle_of_map_keyOf ?_ hsorted
    exact @fillTime_proj _ keyOf (fun _ _ => rfl) L
  have hsort : sortRows (fillTime L) = fillTime L := sortRows_eq_self hsorted'
  have hvel' : velA (fun _ => none) (fillTime L) = L := by
    rw [fillTime_map]
    refine Eq.trans (velA_override ?_ ?_ ?_ _ _) hvel
    · exact fun r => rfl
    · exact fun r => rfl
    · exact fun r q => setVel_time_update r _ q
  have henrich : enrich_data ⟨expected_columns, fillTime L⟩ =
      .ok ⟨addDerivedCols expected_columns, L⟩ := by
    rw [enrich_data,
      if_pos (show "transaction_date" ∈ expected_columns by decide),
      if_pos (show "amount" ∈ expected_columns by decide),
      if_pos (show "fraud_risk_score" ∈ expected_columns by decide),
      if_pos (show "location" ∈ expected_columns by decide),
      if_pos (show "sender_phone" ∈ expected_columns by decide)]
    show Except.ok (⟨addDerivedCols expected_columns,
      velA (fun _ => none) (sortRows ((fillTime L).map deriveRow))⟩ : Batch) = _
    rw [hmapderive, hsort, hvel']
  have hval : validate_data ⟨expected_columns, L⟩ =
      .ok (summaryOf ⟨expected_columns, L⟩) := by
    rw [validate_data, if_pos (show "transaction_id" ∈ expected_columns by decide),
      if_pos (show "amount" ∈ expected_columns by decide)]
  show transform_data ⟨expected_columns, L⟩ = _
  simp only [transform_data, hval, hclean, henrich]
  rw [backfill_eq_self (by decide)]

/-! ### Claim theorems -/

/-- Claim C1, as stated, is false on the code: for the concrete cleaned row
with amount exactly 0, `pd.cut` with the left-exclusive bucket (0,100]
leaves the row uncategorised, so `transaction_volume_category` is null, not
"Very Small".  The transform of a one-row batch with amount 0 yields that
row with a null volume category. -/
theorem c1_zero_amount_cex :
    (transform_data zeroAmountBatch).map
        (fun o => o.rows.map (fun r => (r.amount, r.transaction_volume_category)))
      = .ok [(some 0, none)] := by decide

/-- Claim C1 (amended): for every cleaned row with amount = 0, the
enrichment step assigns a null `transaction_volume_category` — the value 0
falls in no amount bucket, because the first bucket (0,100] excludes its
left endpoint. -/
theorem c1_zero_amount_uncategorized {b o : Batch}
    (h : transform_data b = .ok o) :
    ∀ r ∈ o.rows, r.amount = some 0 → r.transaction_volume_category = none := by
  intro r hr ha
  rcases transform_spec h with
    ⟨cr, hcr, hclean, hval, htid, hamt, htd, hfrs, hloc, hsend, hopres, horows⟩
  have hrows := transform_rows h
  rw [hrows] at hr
  have hfix := outRows_derive_fix hfrs b.rows r hr
  have h2 : (deriveRow r).transaction_volume_category
      = r.transaction_volume_category := by rw [hfix]
  rw [← h2]
  show volumeCutO r.amount = none
  rw [ha]
  decide

/-- Witness for the amended C1 at the concrete zero-amount batch. -/
theorem c1_zero_amount_uncategorized_witness :
    transform_data zeroAmountBatch = .ok exOzero ∧
    (exOzero.rows.getD 0 defaultRow).transaction_volume_category = none :=
  ⟨by decide,
   @c1_zero_amount_uncategorized zeroAmountBatch exOzero (by decide)
     (exOzero.rows.getD 0 defaultRow) (by decide) (by decide)⟩

/-- Claim C2: the enrichment step sorts by (sender_phone, transaction_date)
ascending, and rows with equal sender and equal timestamp keep their
original batch arrival order — the sequence of transaction ids of each
(sender, date) tie class in the enriched output equals the input's, all of
which makes the derived velocity fields a deterministic function of the
input batch. -/
theorem c2_enrich_stable_sort {b e : Batch} (h : enrich_data b = .ok e) :
    e.rows.Pairwise rle ∧
    ∀ (s : String) (d : ℤ),
      ((e.rows.filter (fun r =>
          decide (r.sender_phone = s ∧ r.transaction_date = d))).map
        (·.transaction_id))
      = ((b.rows.filter (fun r =>
          decide (r.sender_phone = s ∧ r.transaction_date = d))).map
        (·.transaction_id)) := by
  rcases enrich_spec h with ⟨_, _, _, _, _, heeq⟩
  have herows : e.rows
      = velA (fun _ => none) (sortRows (b.rows.map deriveRow)) := by rw [heeq]
  constructor
  · rw [herows]
    exact pairwise_rle_of_map_keyOf
      (velA_map_proj keyOf (fun r q => setVel_keyOf r q) _ _)
      (sortRows_pairwise _)
  · intro s d
    have hp : ∀ a : Row,
        (fun r => decide (r.sender_phone = s ∧ r.transaction_date = d)) a = true
          ↔ keyOf a = (s, d) := by
      intro a
      simp [keyOf, Prod.ext_iff]
    rw [herows]
    rw [velA_filter_map _ (·.transaction_id)
      (fun r q => by simp only [setVel_sender, setVel_date]) (fun r q => rfl)]
    rw [sortRows_filter hp]
    rw [List.filter_map]
    rw [@map_proj_map _ deriveRow (fun r => r.transaction_id) (fun r => rfl) _]
    have hfc : b.rows.filter
        ((fun r => decide (r.sender_phone = s ∧ r.transaction_date = d)) ∘ deriveRow)
        = b.rows.filter
          (fun r => decide (r.sender_phone = s ∧ r.transaction_date = d)) :=
      List.filter_congr (fun a _ => rfl)
    rw [hfc]

/-- Witness for C2: on the concrete tie batch, the tie class of sender
254700000006 at timestamp 1704103200 keeps its arrival order U2, U3. -/
theorem c2_enrich_stable_sort_witness :
    enrich_data exB2 = .ok exE2 ∧
    ((exE2.rows.filter (fun r =>
        decide (r.sender_phone = "254700000006" ∧ r.transaction_date = 1704103200))).map
      (·.transaction_id))
    = ((exB2.rows.filter (fun r =>
        decide (r.sender_phone = "254700000006" ∧ r.transaction_date = 1704103200))).map
      (·.transaction_id)) :=
  ⟨by decide, (c2_enrich_stable_sort (by decide)).2 "254700000006" 1704103200⟩

/-- Claim C3 names a real code bug: on a batch carrying exactly the three
required columns (transaction_id, amount, transaction_date), the transform
does not backfill the other canonical columns — `clean_data` line 72 reads
`df['fraud_risk_score']` unconditionally and raises `KeyError`
('fraud_risk_score') before the backfill loop of `transform_data` can run,
contradicting the backfill intent of lines 161-167 and the repository's own
tests, which call the transformer without a fraud_risk_score column. -/
theorem c3_missing_column_keyerror :
    transform_data minimalColsBatch = .error "fraud_risk_score" := by decide

/-- Claim C4, as stated, is false on the code: `validate_data` reads
`df['amount']` (line 32), so a batch without an `amount` column makes
validation itself raise a `KeyError` rather than return a summary. -/
theorem c4_validate_cex : validate_data noAmountBatch = .error "amount" := by
  decide

/-- Claim C4 (amended): for every batch that carries the `transaction_id`
and `amount` columns, `validate_data` raises no error and does not touch its
input: it returns the diagnostic summary (positive null counts per column,
the inferred dtype domain, the duplicate-id count and the negative-amount
count) as a pure function of the batch. -/
theorem c4_validate_total {b : Batch}
    (h1 : "transaction_id" ∈ b.present) (h2 : "amount" ∈ b.present) :
    validate_data b = .ok (summaryOf b) := by
  rw [validate_data, if_pos h1, if_pos h2]

/-- Witness for the amended C4 at the main sample batch. -/
theorem c4_validate_total_witness :
    "transaction_id" ∈ exBmain.present ∧ "amount" ∈ exBmain.present ∧
    validate_data exBmain = .ok (summaryOf exBmain) :=
  ⟨by decide, by decide,
   @c4_validate_total exBmain (by decide) (by decide)⟩

/-- Claim C5: output transaction_id values are pairwise distinct and form a
subset of the input's ids; every output row corresponds to the first input
row carrying its id (found by `find?` in arrival order), agreeing with it on
sender, timestamp, and on the amount whenever the first row's amount was
present. -/
theorem c5_dedup_first_occurrence {b o : Batch} (h : transform_data b = .ok o) :
    ((o.rows.map (·.transaction_id)).Nodup) ∧
    ∀ r ∈ o.rows, ∃ x : Row,
      b.rows.find? (fun y => decide (y.transaction_id = r.transaction_id))
          = some x ∧
      x ∈ b.rows ∧
      r.transaction_id = x.transaction_id ∧
      r.sender_phone = x.sender_phone ∧
      r.transaction_date = x.transaction_date ∧
      (∀ a : ℚ, x.amount = some a → r.amount = some a) := by
  have hrows := transform_rows h
  constructor
  · rw [hrows]
    exact outRows_ids_nodup _ _
  · intro r hr
    rw [hrows] at hr
    rcases outRows_covers b.present b.rows r hr with ⟨x, hx, hid, hsend, hdate, hamt⟩
    have hfind := (dedupGo_spec b.rows [] x hx).2
    refine ⟨x, ?_, List.mem_of_find?_eq_some hfind, hid, hsend, hdate, hamt⟩
    rw [hid]
    exact hfind

/-- Witness for C5 at the main sample batch: output ids are distinct there. -/
theorem c5_dedup_first_occurrence_witness :
    transform_data exBmain = .ok exO ∧
    ((exO.rows.map (·.transaction_id)).Nodup) :=
  ⟨by decide, (@c5_dedup_first_occurrence exBmain exO (by decide)).1⟩

/-- Claim C6: every output row has a present, non-negative amount and a
present fraud_risk_score lying in the closed interval [0, 100]. -/
theorem c6_output_ranges {b o : Batch} (h : transform_data b = .ok o) :
    ∀ r ∈ o.rows,
      (∃ a : ℚ, r.amount = some a ∧ 0 ≤ a) ∧
      (∃ v : ℚ, r.fraud_risk_score = some v ∧ 0 ≤ v ∧ v ≤ 100) := by
  rcases transform_spec h with
    ⟨cr, hcr, hclean, hval, htid, hamt, htd, hfrs, hloc, hsend, hopres, horows⟩
  have hrows := transform_rows h
  intro r hr
  rw [hrows] at hr
  exact ⟨outRows_amount b.present b.rows r hr, outRows_score hfrs b.rows r hr⟩

/-- Witness for C6 at the main sample batch's first output row. -/
theorem c6_output_ranges_witness :
    transform_data exBmain = .ok exO ∧
    (∃ a : ℚ, (exO.rows.getD 0 defaultRow).amount = some a ∧ 0 ≤ a) :=
  ⟨by decide,
   (@c6_output_ranges exBmain exO (by decide) (exO.rows.getD 0 defaultRow)
     (by decide)).1⟩

/-- Claim C7: in the transform's output, within each sender's rows (in
output order) the shifted previous-timestamp sequence starts with null (a
sender's first transaction) and then carries the previous row's timestamp;
`time_since_prev_transaction` is exactly the minute gap to that previous
timestamp (null when there is none); `is_suspicious_velocity` is 1 when the
gap is below 5 minutes and 0 otherwise, a null gap giving 0; and each
sender's rows are in chronological order, so the gap is measured against
the chronologically previous transaction. -/
theorem c7_velocity_fields {b o : Batch} (h : transform_data b = .ok o) :
    (∀ s : String,
      ((o.rows.filter (fun r => decide (r.sender_phone = s))).map
          (·.prev_transaction_time))
        = prevSeq none (o.rows.filter (fun r => decide (r.sender_phone = s)))) ∧
    (∀ r ∈ o.rows,
      r.time_since_prev_transaction
          = r.prev_transaction_time.map (fun q => gapMin r.transaction_date q) ∧
        r.is_suspicious_velocity
          = (match r.time_since_prev_transaction with
             | some x => if x < 5 then 1 else 0
             | none => 0)) ∧
    (∀ s : String,
      (o.rows.filter (fun r => decide (r.sender_phone = s))).Pairwise
        (fun x y => x.transaction_date ≤ y.transaction_date)) := by
  have hrows := transform_rows h
  refine ⟨?_, ?_, ?_⟩
  · intro s
    rw [hrows]
    exact outRows_prev_filter b.present b.rows s
  · intro r hr
    rw [hrows] at hr
    exact outRows_time_pointwise b.present b.rows r hr
  · intro s
    rw [hrows]
    have hpw : ((outRows b.present b.rows).filter
        (fun r => decide (r.sender_phone = s))).Pairwise rle :=
      (outRows_pairwise b.present b.rows).filter _
    refine hpw.imp_of_mem ?_
    intro x y hx hy hxy
    have hsx : x.sender_phone = s := by
      have := (List.mem_filter.mp hx).2
      exact of_decide_eq_true this
    have hsy : y.sender_phone = s := by
      have := (List.mem_filter.mp hy).2
      exact of_decide_eq_true this
    rcases hxy with hlt | ⟨_, _, hle⟩
    · exfalso
      rw [show keyOf x = (s, x.transaction_date) by rw [← hsx]; rfl,
          show keyOf y = (s, y.transaction_date) by rw [← hsy]; rfl] at hlt
      rw [charListLt_irrefl] at hlt
      exact Bool.false_ne_true hlt
    · exact hle

/-- Witness for C7: on the main sample batch the single-sender slice has
prev-timestamp sequence [none, 10:00, 10:03]. -/
theorem c7_velocity_fields_witness :
    transform_data exBmain = .ok exO ∧
    ((exO.rows.filter (fun r => decide (r.sender_phone = "254700000001"))).map
        (·.prev_transaction_time))
      = prevSeq none
          (exO.rows.filter (fun r => decide (r.sender_phone = "254700000001"))) :=
  ⟨by decide, (@c7_velocity_fields exBmain exO (by decide)).1 "254700000001"⟩

/-- Claim C8: the transform is idempotent on its own image — running
`transform_data` on a batch it produced returns that batch unchanged. -/
theorem c8_idempotent {b o : Batch} (h : transform_data b = .ok o) :
    transform_data o = .ok o := by
  rcases transform_spec h with
    ⟨cr, hcr, hclean, hval, htid, hamt, htd, hfrs, hloc, hsend, hopres, horows⟩
  have hrows := transform_rows h
  obtain ⟨P, L⟩ := o
  have hP : P = expected_columns := hopres
  have hL : L = outRows b.present b.rows := hrows
  exact transform_fix hP
    (by rw [hL]; exact outRows_ids_nodup _ _)
    (by rw [hL]; exact outRows_amount _ _)
    (by rw [hL]; exact outRows_score hfrs _)
    (by rw [hL]; exact outRows_fee_allOr _ _)
    (by rw [hL]; exact outRows_loc_allOr hloc _)
    (by rw [hL]; exact outRows_merchant_allOr _ _)
    (by rw [hL]; exact outRows_pairwise _ _)
    (by rw [hL]; exact outRows_derive_fix hfrs _)
    (by rw [hL]; exact outRows_velA_fix _ _)

/-- Witness for C8 at the main sample batch. -/
theorem c8_idempotent_witness :
    transform_data exBmain = .ok exO ∧ transform_data exO = .ok exO :=
  ⟨by decide, @c8_idempotent exBmain exO (by decide)⟩

/-- Claim C9: an empty batch carrying the Raw Transaction Record columns is
accepted without error, and the transform returns the empty canonical batch
with the fixed 26-column set and order. -/
theorem c9_empty_batch :
    transform_data emptyRawBatch = .ok ⟨expected_columns, []⟩ := by decide

/-- Claim C10: a cleaned row whose fraud_risk_score is exactly 0 (whether
originally 0, filled in for a missing score, or clamped up from a negative
score) gets a null fraud_category — the fraud buckets (0,30], (30,70],
(70,100] all exclude 0, so the categorisation is not total over the valid
score range. -/
theorem c10_zero_score_uncategorized {b o : Batch}
    (h : transform_data b = .ok o) :
    ∀ r ∈ o.rows, r.fraud_risk_score = some 0 → r.fraud_category = none := by
  intro r hr ha
  rcases transform_spec h with
    ⟨cr, hcr, hclean, hval, htid, hamt, htd, hfrs, hloc, hsend, hopres, horows⟩
  have hrows := transform_rows h
  rw [hrows] at hr
  have hfix := outRows_derive_fix hfrs b.rows r hr
  have h2 : (deriveRow r).fraud_category = r.fraud_category := by rw [hfix]
  rw [← h2]
  show fraudCutO r.fraud_risk_score = none
  rw [ha]
  decide

/-- Witness for C10: in the main sample batch the row whose missing score
was zero-filled ends with a null fraud_category. -/
theorem c10_zero_score_uncategorized_witness :
    transform_data exBmain = .ok exO ∧
    (exO.rows.getD 1 defaultRow).fraud_category = none :=
  ⟨by decide,
   @c10_zero_score_uncategorized exBmain exO (by decide)
     (exO.rows.getD 1 defaultRow) (by decide) (by decide)⟩
